import Mathlib

/-!
Verification development for the `safe-srm` utility (`src/main.rs`).

The Rust source is shallowly embedded: pure computations become Lean
functions on `Nat` / `String` / `List`; filesystem-dependent code becomes
explicit state passing over small state types, with the outcomes of
individual syscalls supplied by an environment/oracle record; `u64`
arithmetic is `Nat` with explicit `% 2^64` / overflow bounds where the
source checks for overflow; fallible code returns `Except`/`Option`.
-/

set_option maxRecDepth 100000

namespace SafeSrm

/-! ## Constants from `main.rs` -/

def SHORT_ID_LENGTH : Nat := 6

def PROTECTED_PATHS : List String :=
  ["/bin", "/sbin", "/etc", "/usr", "/lib", "/lib64", "/root", "/boot"]

/-- `u64::MAX` -/
def U64MAX : Nat := 18446744073709551615

/-! ## MD5 (the `md5` crate's `compute`), over byte lists.

`generate_short_id` hashes the UTF-8 bytes of `trash_id` with MD5 and
formats the 16-byte digest as 32 lowercase hex characters
(`format!("{:x}", hash)`).  MD5 is embedded exactly (RFC 1321): 32-bit
words are `Nat` reduced `% 2^32`. -/

def MOD32 : Nat := 4294967296

def add32 (a b : Nat) : Nat := (a + b) % MOD32

def not32 (a : Nat) : Nat := Nat.xor a 4294967295

def rotl32 (x s : Nat) : Nat :=
  Nat.lor ((x <<< s) % MOD32) (x >>> (32 - s))

def md5F (b c d : Nat) : Nat := Nat.lor (Nat.land b c) (Nat.land (not32 b) d)

def md5G (b c d : Nat) : Nat := Nat.lor (Nat.land b d) (Nat.land c (not32 d))

def md5H (b c d : Nat) : Nat := Nat.xor (Nat.xor b c) d

def md5I (b c d : Nat) : Nat := Nat.xor c (Nat.lor b (not32 d))

/-- The 64 round constants `K[i] = floor(2^32 * |sin(i+1)|)`. -/
def md5K : List Nat :=
  [0xd76aa478, 0xe8c7b756, 0x242070db, 0xc1bdceee,
   0xf57c0faf, 0x4787c62a, 0xa8304613, 0xfd469501,
   0x698098d8, 0x8b44f7af, 0xffff5bb1, 0x895cd7be,
   0x6b901122, 0xfd987193, 0xa679438e, 0x49b40821,
   0xf61e2562, 0xc040b340, 0x265e5a51, 0xe9b6c7aa,
   0xd62f105d, 0x02441453, 0xd8a1e681, 0xe7d3fbc8,
   0x21e1cde6, 0xc33707d6, 0xf4d50d87, 0x455a14ed,
   0xa9e3e905, 0xfcefa3f8, 0x676f02d9, 0x8d2a4c8a,
   0xfffa3942, 0x8771f681, 0x6d9d6122, 0xfde5380c,
   0xa4beea44, 0x4bdecfa9, 0xf6bb4b60, 0xbebfbc70,
   0x289b7ec6, 0xeaa127fa, 0xd4ef3085, 0x04881d05,
   0xd9d4d039, 0xe6db99e5, 0x1fa27cf8, 0xc4ac5665,
   0xf4292244, 0x432aff97, 0xab9423a7, 0xfc93a039,
   0x655b59c3, 0x8f0ccc92, 0xffeff47d, 0x85845dd1,
   0x6fa87e4f, 0xfe2ce6e0, 0xa3014314, 0x4e0811a1,
   0xf7537e82, 0xbd3af235, 0x2ad7d2bb, 0xeb86d391]

/-- The per-round left-rotation amounts. -/
def md5S : List Nat :=
  [7, 12, 17, 22, 7, 12, 17, 22, 7, 12, 17, 22, 7, 12, 17, 22,
   5,  9, 14, 20, 5,  9, 14, 20, 5,  9, 14, 20, 5,  9, 14, 20,
   4, 11, 16, 23, 4, 11, 16, 23, 4, 11, 16, 23, 4, 11, 16, 23,
   6, 10, 15, 21, 6, 10, 15, 21, 6, 10, 15, 21, 6, 10, 15, 21]

/-- One MD5 round `i` (0..63) on state `(A,B,C,D)` with message words `m`. -/
def md5Round (m : List Nat) (st : Nat × Nat × Nat × Nat) (i : Nat) :
    Nat × Nat × Nat × Nat :=
  let (a, b, c, d) := st
  let (f, g) :=
    if i < 16 then (md5F b c d, i)
    else if i < 32 then (md5G b c d, (5 * i + 1) % 16)
    else if i < 48 then (md5H b c d, (3 * i + 5) % 16)
    else (md5I b c d, (7 * i) % 16)
  let f := add32 (add32 (add32 f a) (md5K.getD i 0)) (m.getD g 0)
  (d, add32 b (rotl32 f (md5S.getD i 0)), b, c)

/-- Process one 512-bit chunk (16 little-endian 32-bit words). -/
def md5Chunk (st : Nat × Nat × Nat × Nat) (m : List Nat) :
    Nat × Nat × Nat × Nat :=
  let (a0, b0, c0, d0) := st
  let (a, b, c, d) := (List.range 64).foldl (md5Round m) (a0, b0, c0, d0)
  (add32 a0 a, add32 b0 b, add32 c0 c, add32 d0 d)

/-- Group the bytes of a padded message into little-endian 32-bit words. -/
def leWordsAux : Nat → List Nat → List Nat
  | 0, _ => []
  | _, [] => []
  | fuel + 1, b0 :: rest =>
    let b1 := rest.getD 0 0
    let b2 := rest.getD 1 0
    let b3 := rest.getD 2 0
    (b0 + b1 * 256 + b2 * 65536 + b3 * 16777216) :: leWordsAux fuel (rest.drop 3)

def leWords (bytes : List Nat) : List Nat := leWordsAux bytes.length bytes

/-- Split a padded message into 64-byte chunks (fuel-structured so the
kernel can evaluate it). -/
def chunks64Aux : Nat → List Nat → List (List Nat)
  | 0, _ => []
  | _, [] => []
  | fuel + 1, l => l.take 64 :: chunks64Aux fuel (l.drop 64)

def chunks64 (l : List Nat) : List (List Nat) := chunks64Aux (l.length + 1) l

/-- A `Nat` as `k` little-endian bytes. -/
def leBytes : Nat → Nat → List Nat
  | 0, _ => []
  | k + 1, n => n % 256 :: leBytes k (n / 256)

/-- MD5 padding: append `0x80`, zero-pad to 56 mod 64, then the bit
length as a 64-bit little-endian integer. -/
def md5Pad (msg : List Nat) : List Nat :=
  let ml := msg.length
  let zeros := (119 - ml % 64) % 64
  msg ++ [0x80] ++ List.replicate zeros 0 ++ leBytes 8 (ml * 8 % 2 ^ 64)

/-- The 16-byte MD5 digest of a byte string. -/
def md5Bytes (msg : List Nat) : List Nat :=
  let st := (chunks64 (md5Pad msg)).foldl
    (fun st chunk => md5Chunk st (leWords chunk))
    (0x67452301, 0xefcdab89, 0x98badcfe, 0x10325476)
  let (a, b, c, d) := st
  leBytes 4 a ++ leBytes 4 b ++ leBytes 4 c ++ leBytes 4 d

def hexDigit (n : Nat) : Char :=
  Char.ofNat (if n < 10 then 48 + n else 87 + n)

def hexByte (n : Nat) : List Char := [hexDigit (n / 16), hexDigit (n % 16)]

/-- UTF-8 encoding of one character (the `md5` crate hashes the UTF-8
bytes of the string). -/
def utf8Enc (c : Char) : List Nat :=
  let n := c.toNat
  if n < 0x80 then [n]
  else if n < 0x800 then [0xC0 + n / 64, 0x80 + n % 64]
  else if n < 0x10000 then [0xE0 + n / 4096, 0x80 + n / 64 % 64, 0x80 + n % 64]
  else [0xF0 + n / 262144, 0x80 + n / 4096 % 64, 0x80 + n / 64 % 64, 0x80 + n % 64]

def strBytes (s : String) : List Nat := s.toList.flatMap utf8Enc

/-- `format!("{:x}", md5::compute(s.as_bytes()))`: the digest as 32
lowercase hex characters. -/
def md5hex (s : String) : String :=
  String.mk ((md5Bytes (strBytes s)).flatMap hexByte)

example : md5hex "abc" = "900150983cd24fb0d6963f7d28e17f72" := by decide

example : (md5hex "x_1700000000000001050").take 6 = "e532b7" := by decide

example : (md5hex "x_1700000000000002207").take 6 = "e532b7" := by decide

/-! ## Data model (`FileType`, `FileMeta`) -/

inductive FileType
  | File
  | Dir
  | Symlink
deriving DecidableEq, Repr

/-- The persisted `QuarantineRecord` (struct `FileMeta` in `main.rs`). -/
structure FileMeta where
  original_path : String
  trash_path : String
  delete_time : String
  expire_days : Int
  file_type : FileType
  permissions : Option Nat
  uid : Option Nat
  gid : Option Nat
  short_id : String
  size_bytes : Nat
deriving DecidableEq, Repr

/-! ## `generate_short_id` (line 473) -/

def typeTag : FileType → String
  | .File => "f"
  | .Dir => "d"
  | .Symlink => "l"

/-- The collision-resolution `while` loop.  Each iteration appends
`_<counter>` to the previous candidate, so successive candidates are
pairwise distinct (strictly increasing length); a fuel of
`existing.length + 1` therefore always reaches the first free candidate,
which is exactly where the Rust loop stops. -/
def short_id_aux : Nat → String → Nat → List String → String
  | 0, cand, _, _ => cand
  | fuel + 1, cand, counter, existing =>
    if existing.contains cand then
      short_id_aux fuel (cand ++ "_" ++ toString counter) (counter + 1) existing
    else cand

/-- `generate_short_id(trash_id, file_type, existing)`: a one-letter type
tag followed by the first `SHORT_ID_LENGTH` hex chars of
`md5(trash_id)`, with numeric suffixes appended while the candidate is
already in `existing`.  The `HashSet` is modelled as a list. -/
def generate_short_id (trash_id : String) (file_type : FileType)
    (existing : List String) : String :=
  let hex := md5hex trash_id
  let candidate := typeTag file_type ++ hex.take SHORT_ID_LENGTH
  short_id_aux (existing.length + 1) candidate 1 existing

/-! ## Exact binary64 model for the `0.8` availability fraction

`check_disk_space` computes `(available as f64 * MAX_FILE_SPACE_RATIO) as
u64` with `MAX_FILE_SPACE_RATIO = 0.8`.  Every value arising there is a
nonnegative dyadic rational in the normal finite range of binary64, so a
double is modelled by its exact value `num / 2^scale` and each operation
rounds to nearest, ties to even, exactly as IEEE-754 prescribes. -/

/-- Floor base-2 logarithm, fuel-structured so the kernel can evaluate
it (`Nat.log2` is well-founded recursion and does not reduce). -/
def log2Aux : Nat → Nat → Nat
  | 0, _ => 0
  | fuel + 1, n => if n ≤ 1 then 0 else log2Aux fuel (n / 2) + 1

def log2N (n : Nat) : Nat := log2Aux n n

theorem log2Aux_bounds : ∀ fuel n : Nat, 0 < n → n ≤ fuel →
    2 ^ log2Aux fuel n ≤ n ∧ n < 2 ^ (log2Aux fuel n + 1) := by
  intro fuel
  induction fuel with
  | zero => intro n h1 h2; omega
  | succ fuel ih =>
    intro n h1 h2
    unfold log2Aux
    by_cases hsmall : n ≤ 1
    · rw [if_pos hsmall]
      constructor
      · simpa using h1
      · have : (2:Nat) ^ (0 + 1) = 2 := by norm_num
        omega
    · rw [if_neg hsmall]
      have hrec := ih (n / 2) (by omega) (by omega)
      have e1 : (2:Nat) ^ (log2Aux fuel (n / 2) + 1) =
          2 * 2 ^ (log2Aux fuel (n / 2)) := by ring
      have e2 : (2:Nat) ^ (log2Aux fuel (n / 2) + 1 + 1) =
          4 * 2 ^ (log2Aux fuel (n / 2)) := by ring
      omega

theorem log2N_bounds (n : Nat) (h : 0 < n) :
    2 ^ log2N n ≤ n ∧ n < 2 ^ (log2N n + 1) :=
  log2Aux_bounds n n h (le_refl n)

theorem log2N_eq (k n : Nat) (h1 : 2 ^ k ≤ n) (h2 : n < 2 ^ (k + 1)) :
    log2N n = k := by
  have h0 : 0 < n := lt_of_lt_of_le (Nat.pos_pow_of_pos k (by norm_num)) h1
  obtain ⟨b1, b2⟩ := log2N_bounds n h0
  rcases Nat.lt_trichotomy (log2N n) k with hlt | heq | hgt
  · have : (2:Nat) ^ (log2N n + 1) ≤ 2 ^ k :=
      Nat.pow_le_pow_right (by norm_num) (by omega)
    omega
  · exact heq
  · have : (2:Nat) ^ (k + 1) ≤ 2 ^ (log2N n) :=
      Nat.pow_le_pow_right (by norm_num) (by omega)
    omega

/-- Keep the top 53 bits of `p`, rounding the `d` dropped low bits to
nearest, ties to even (`d = log2N p - 52`). -/
def roundMant (p d : Nat) : Nat :=
  if 2 ^ (d - 1) < p % 2 ^ d ∨ (p % 2 ^ d = 2 ^ (d - 1) ∧ (p / 2 ^ d) % 2 = 1) then
    (p / 2 ^ d + 1) * 2 ^ d
  else (p / 2 ^ d) * 2 ^ d

/-- Round the dyadic rational `p / 2^s` to 53 significant bits, to
nearest, ties to even; the result is returned at the same scale.
(Subnormal and infinite ranges never arise for this program's values and
are not modelled.) -/
def roundDyadic (p s : Nat) : Nat × Nat :=
  if p = 0 then (0, s)
  else if log2N p ≤ 52 then (p, s)
  else (roundMant p (log2N p - 52), s)

/-- `a as f64` for a `u64` `a`: round to nearest, ties to even. -/
def f64ofU64 (a : Nat) : Nat × Nat := roundDyadic a 0

/-- The `f64` literal `0.8`: the binary64 nearest 4/5, exactly
`3602879701896397 / 2^52`. -/
def lit08 : Nat × Nat := (3602879701896397, 52)

/-- Binary64 multiplication: exact product, then one rounding. -/
def f64Mul (x y : Nat × Nat) : Nat × Nat := roundDyadic (x.1 * y.1) (x.2 + y.2)

/-- `as u64` on a nonnegative finite `f64`: truncate toward zero,
saturating at `u64::MAX`. -/
def f64toU64 (x : Nat × Nat) : Nat := min (x.1 / 2 ^ x.2) U64MAX

/-- `(available as f64 * MAX_FILE_SPACE_RATIO) as u64` (line 515). -/
def maxAllowed (available : Nat) : Nat :=
  f64toU64 (f64Mul (f64ofU64 available) lit08)

/-! ## `check_disk_space` (line 499) -/

inductive SpaceErr
  | noSpace
  | overflow
  | singleTooLarge
  | insufficient
deriving DecidableEq, Repr

/-- `check_disk_space(trash_dir, required_bytes, is_single_file)` with the
filesystem's `available_space` answer passed in.  `u64` values are `Nat`;
`checked_mul(120)` fails exactly when the product exceeds `u64::MAX`, and
`checked_div(100)` never fails. -/
def check_disk_space (available required_bytes : Nat)
    (is_single_file : Bool) : Except SpaceErr Unit :=
  if available = 0 then .error .noSpace
  else
    match (if required_bytes < 100 * 1024 * 1024 then some required_bytes
           else if required_bytes * 120 ≤ U64MAX then some (required_bytes * 120 / 100)
           else none) with
    | none => .error .overflow
    | some base_required =>
      if is_single_file = true ∧ maxAllowed available < required_bytes then
        .error .singleTooLarge
      else if available < base_required then .error .insufficient
      else .ok ()

/-! ## `atomic_save_meta` (line 426)

The metadata directory is a store `String → Option String` from file name
to content.  `atomic_save_meta` serializes the record, writes it to
`<name>.meta.tmp`, syncs, and renames onto `<name>.meta`; a crash can
expose the store after any prefix of those steps, including any partially
completed write of the tmp file. -/

def jsonStr (s : String) : String := "\"" ++ s ++ "\""

def jsonOptNat : Option Nat → String
  | none => "null"
  | some n => toString n

def jsonFileType : FileType → String
  | .File => "\"File\""
  | .Dir => "\"Dir\""
  | .Symlink => "\"Symlink\""

/-- `serde_json::to_string_pretty(meta)`: fields in declaration order
(string escaping is elided; the paths in this development need none). -/
def serializeMeta (m : FileMeta) : String :=
  "\x7b\n  \"original_path\": " ++ jsonStr m.original_path ++
  ",\n  \"trash_path\": " ++ jsonStr m.trash_path ++
  ",\n  \"delete_time\": " ++ jsonStr m.delete_time ++
  ",\n  \"expire_days\": " ++ toString m.expire_days ++
  ",\n  \"file_type\": " ++ jsonFileType m.file_type ++
  ",\n  \"permissions\": " ++ jsonOptNat m.permissions ++
  ",\n  \"uid\": " ++ jsonOptNat m.uid ++
  ",\n  \"gid\": " ++ jsonOptNat m.gid ++
  ",\n  \"short_id\": " ++ jsonStr m.short_id ++
  ",\n  \"size_bytes\": " ++ toString m.size_bytes ++ "\n\x7d"

/-- Point update of a file store. -/
def mupd (st : String → Option String) (k : String) (v : Option String) :
    String → Option String :=
  fun x => if x = k then v else st x

/-- Every store state observable during `atomic_save_meta name m`,
starting from `st0`: initial; after `File::create(tmp)`; after each
partial or complete write of the serialization into the tmp file (the
complete-write state is also the post-`sync_all` state); after the
`rename(tmp, final)`. -/
def saveMetaStates (name : String) (m : FileMeta)
    (st0 : String → Option String) : List (String → Option String) :=
  let tmp := name ++ ".meta.tmp"
  let fin := name ++ ".meta"
  let s := serializeMeta m
  [st0, mupd st0 tmp (some "")] ++
  ((List.range (s.length + 1)).map fun k => mupd st0 tmp (some (s.take k))) ++
  [mupd (mupd st0 tmp none) fin (some s)]

/-! ## `list_all_meta` (line 443) -/

/-- Environment for enumeration: the JSON parser and the two filesystem
questions the validator asks. -/
structure MetaEnv where
  parse : String → Option FileMeta
  pathExists : String → Bool
  sameFs : String → String → Bool

/-- One directory entry of the meta dir: its file name, and the content
when `fs::read_to_string` succeeds (`none` models a read error, which the
source silently skips). -/
structure MetaDirEntry where
  fileName : String
  content : Option String

/-- `strip_suffix(".meta")`. -/
def stripMetaSuffix (s : String) : Option String :=
  if (".meta".toList).isSuffixOf s.toList then
    some (String.mk (s.toList.take (s.toList.length - 5)))
  else none

inductive MetaScan
  | keep (name : String) (meta : FileMeta)
  | purge (name : String)
  | skipEntry
deriving Repr

/-- The loop body of `list_all_meta` for one directory entry. -/
def scanEntry (env : MetaEnv) (trashDir : String) (e : MetaDirEntry) : MetaScan :=
  match stripMetaSuffix e.fileName with
  | none => .skipEntry
  | some name =>
    match e.content with
    | none => .skipEntry
    | some content =>
      match env.parse content with
      | none => .purge name
      | some meta =>
        if env.pathExists meta.trash_path = false ∨
           env.sameFs meta.trash_path trashDir = false then .purge name
        else
          .keep name (if meta.short_id = "" then { meta with short_id := name } else meta)

/-- `list_all_meta(meta_dir, trash_dir)`: the returned map (as an
association list keyed by the stripped file name) together with the list
of purged (removed) record names. -/
def list_all_meta (env : MetaEnv) (trashDir : String) :
    List MetaDirEntry → List (String × FileMeta) × List String
  | [] => ([], [])
  | e :: rest =>
    let r := list_all_meta env trashDir rest
    match scanEntry env trashDir e with
    | .keep name meta => ((name, meta) :: r.1, r.2)
    | .purge name => (r.1, name :: r.2)
    | .skipEntry => r

/-! ## `fast_file_copy` / `safe_move_with_progress` (lines 216/269)

One move of a single filesystem entry.  The outcome of every fallible
syscall is supplied by a `MoveEnv` oracle; the functions return the
source's `io::Result` together with the list of externally visible
filesystem events, in program order. -/

inductive IOErr
  | interrupted
  | other
deriving DecidableEq, Repr

inductive MoveEv
  | renameOk (src dst : String)
  | symlinkRecreate (src dst : String)
  | reflinkClone (src dst : String)
  | hardLinkMade (src dst : String)
  | mmapCopyDone (src dst : String)
  | streamCopyDone (src dst : String)
  | removeSrcFile (src : String)
  | dirMove (src dst : String)
deriving DecidableEq, Repr

/-- Events marking a copy strategy having completed the destination. -/
def isCopyDone : MoveEv → Bool
  | .reflinkClone _ _ => true
  | .hardLinkMade _ _ => true
  | .mmapCopyDone _ _ => true
  | .streamCopyDone _ _ => true
  | _ => false

structure MoveEnv where
  /-- `fs::symlink_metadata(src)` / `fs::metadata(src)` succeed. -/
  srcMetaOk : Bool
  /-- `len()` of the source metadata. -/
  srcLen : Nat
  isSymlink : Bool
  isDir : Bool
  /-- `fs::rename(src, dst)` succeeds (same filesystem). -/
  renameOk : Bool
  /-- `try_reflink_copy`: `Ok(true)` cloned, `Ok(false)` unsupported, error propagates. -/
  reflinkRes : Except IOErr Bool
  /-- `same_filesystem(src, dst)`. -/
  sameFs : Bool
  /-- `fs::hard_link(src, dst)` succeeds. -/
  hardLinkOk : Bool
  /-- `mmap_copy` outcome: `none` = success, `some e` = failure (`interrupted` when the cancellation flag was seen mid-copy). -/
  mmapRes : Option IOErr
  /-- buffered streaming copy outcome. -/
  streamRes : Option IOErr
  readLinkOk : Bool
  symlinkCreateOk : Bool
  /-- `fs::remove_file(src)` succeeds (a failed removal removes nothing). -/
  removeSrcOk : Bool
  /-- `move_directory_with_progress` outcome. -/
  dirMoveRes : Except IOErr Nat

/-- `fast_file_copy(src, dst)` (line 216): reflink, then hard link on the
same filesystem, then mmap chunked copy for files over 10 MiB, else
buffered streaming copy.  No removal of the source happens here. -/
def fast_file_copy (env : MoveEnv) (src dst : String) :
    Except IOErr Nat × List MoveEv :=
  if env.srcMetaOk = false then (.error .other, [])
  else
    let size := env.srcLen
    match env.reflinkRes with
    | .error e => (.error e, [])
    | .ok true => (.ok size, [.reflinkClone src dst])
    | .ok false =>
      if env.sameFs && env.hardLinkOk then (.ok size, [.hardLinkMade src dst])
      else if 10 * 1024 * 1024 < size then
        match env.mmapRes with
        | none => (.ok size, [.mmapCopyDone src dst])
        | some e => (.error e, [])
      else
        match env.streamRes with
        | none => (.ok size, [.streamCopyDone src dst])
        | some e => (.error e, [])

/-- `safe_move_with_progress(src, dst)` (line 269): rename first; then
symlink re-creation; then recursive directory move; then file copy
followed by `fs::remove_file(src)`. -/
def safe_move_with_progress (env : MoveEnv) (src dst : String) :
    Except IOErr Nat × List MoveEv :=
  if env.srcMetaOk = false then (.error .other, [])
  else if env.renameOk then (.ok env.srcLen, [.renameOk src dst])
  else if env.isSymlink then
    if env.readLinkOk = false then (.error .other, [])
    else if env.symlinkCreateOk = false then (.error .other, [])
    else if env.removeSrcOk then (.ok 0, [.symlinkRecreate src dst, .removeSrcFile src])
    else (.error .other, [.symlinkRecreate src dst])
  else if env.isDir then
    match env.dirMoveRes with
    | .ok n => (.ok n, [.dirMove src dst])
    | .error e => (.error e, [.dirMove src dst])
  else
    match fast_file_copy env src dst with
    | (.error e, evs) => (.error e, evs)
    | (.ok size, evs) =>
      if env.removeSrcOk then (.ok size, evs ++ [.removeSrcFile src])
      else (.error .other, evs)

/-! ## Path predicates used by `handle_delete_batch` -/

/-- `p.starts_with(s)` on the string form (byte-for-byte; the paths in
this development are ASCII, where bytes and chars coincide). -/
def startsWithStr (p s : String) : Bool := s.toList.isPrefixOf p.toList

/-- Line 573: symlink target under a protected root (plain `starts_with`,
no component-boundary condition). -/
def protectedTarget (t : String) : Bool :=
  PROTECTED_PATHS.any (fun p => startsWithStr t p)

/-- Line 606: canonical path under a protected root, requiring the match
to end the string or continue with `/`. -/
def protectedCanonical (c : String) : Bool :=
  PROTECTED_PATHS.any (fun p =>
    startsWithStr c p &&
    (c.toList.length == p.toList.length || c.toList.getD p.toList.length ' ' == '/'))

/-- `needle` occurs as a contiguous substring of `hay`. -/
def listInfixOf (needle : List Char) : List Char → Bool
  | [] => needle.isEmpty
  | c :: rest => needle.isPrefixOf (c :: rest) || listInfixOf needle rest

/-- Line 545: `path_str.contains("..") || path_str.starts_with('-')`. -/
def looksLikeTraversal (p : String) : Bool :=
  listInfixOf "..".toList p.toList || p.toList.headD ' ' == '-'

def splitSlash : List Char → List (List Char)
  | [] => [[]]
  | x :: xs =>
    match splitSlash xs with
    | [] => [[]]
    | h :: t => if x = '/' then [] :: h :: t else (x :: h) :: t

/-- `abs_path.file_name()...unwrap_or("unknown")` (line 694): the last
nonempty `/`-separated component. -/
def fileName (p : String) : String :=
  match (splitSlash p.toList).reverse.find? (fun l => l.isEmpty = false) with
  | some l => String.mk l
  | none => "unknown"

/-! ## `handle_delete_batch` (line 539)

The batch driver, in four phases exactly as in the source: the traversal
pre-scan (which calls `process::exit(1)` — modelled as an aborting
result), the per-item admission loop, the cumulative batch space check
(also aborting), and the relocation loop with its interrupt-triggered
rollback.  Filesystem answers for each path are a `PathEnv`; per-run
outcomes (syscall results, timestamps, and the cancellation flag) are a
`RunEnv` oracle. -/

structure SymMeta where
  is_symlink : Bool
  is_dir : Bool
  len : Nat
  mode : Nat
  uid : Nat
  gid : Nat
deriving DecidableEq, Repr

structure PathEnv where
  /-- the item's absolute path (the cwd-join of a relative argument is
  taken as already performed). -/
  path : String
  /-- first `fs::symlink_metadata` (line 569); `none` = error. -/
  firstMeta : Option SymMeta
  /-- `fs::read_link` (line 571). -/
  linkTarget : Option String
  /-- `abs_path.exists()` (line 581). -/
  pathExists : Bool
  /-- second `fs::symlink_metadata` (line 586). -/
  sndMeta : Option SymMeta
  /-- `canonicalize_safe` (line 598). -/
  canonical : Option String
  /-- `calculate_dir_stats` total bytes (line 616); `none` = error. -/
  dirStats : Option Nat

inductive BatchEv
  | checkSpace (required : Nat) (single : Bool)
  | relocate (src dst : String)
  | saveMeta (trash_id : String)
  | removeMetaFile (trash_id : String)
  | moveBack (src dst : String)
deriving DecidableEq, Repr

inductive Admission
  | skip (reason : String)
  | accepted (meta : SymMeta) (ft : FileType) (size : Nat)
deriving DecidableEq, Repr

/-- Lines 615-635: size determination and the per-item space check. -/
def admitSize (available : Nat) (e : PathEnv) (m : SymMeta) (ft : FileType) :
    Admission × List BatchEv :=
  match (if ft = .Dir then e.dirStats else some m.len) with
  | none => (.skip "Failed to get dir stats", [])
  | some size =>
    if ft ≠ FileType.Dir ∧ 0 < size then
      match check_disk_space available size true with
      | .error _ => (.skip "insufficient space for single item", [.checkSpace size true])
      | .ok _ => (.accepted m ft size, [.checkSpace size true])
    else (.accepted m ft size, [])

/-- One iteration of the admission loop (lines 556-636). -/
def admitItem (force : Bool) (available : Nat) (e : PathEnv) :
    Admission × List BatchEv :=
  let symlinkSkip :=
    match e.firstMeta with
    | some m =>
      if m.is_symlink then
        match e.linkTarget with
        | some t =>
          if force = false && protectedTarget t then
            some ("Symlink targets protected path: " ++ t)
          else none
        | none => none
      else none
    | none => none
  match symlinkSkip with
  | some r => (.skip r, [])
  | none =>
    if e.pathExists = false then (.skip "Not found", [])
    else
      match e.sndMeta with
      | none => (.skip "metadata error", [])
      | some m =>
        let ft := if m.is_symlink then FileType.Symlink
                  else if m.is_dir then FileType.Dir else FileType.File
        if force = false && m.is_symlink = false then
          match e.canonical with
          | none => (.skip "Invalid path", [])
          | some c =>
            if protectedCanonical c then
              (.skip "Protected system path (use -f to override)", [])
            else admitSize available e m ft
        else admitSize available e m ft

/-- The whole admission loop: admitted items (in caller order), skipped
items with reasons, the cumulative `total_required_space`, and the space
check events it issued. -/
def admissionPhase (force : Bool) (available : Nat) :
    List PathEnv →
    List (PathEnv × SymMeta × FileType × Nat) × List (String × String) × Nat × List BatchEv
  | [] => ([], [], 0, [])
  | e :: rest =>
    let (items, skipped, total, evs) := admissionPhase force available rest
    match admitItem force available e with
    | (.skip r, ev) => (items, (e.path, r) :: skipped, total, ev ++ evs)
    | (.accepted m ft size, ev) => ((e, m, ft, size) :: items, skipped, total + size, ev ++ evs)

/-- An entry of the `moved` vector (line 668): the 5-tuple
`(trash_id, short_id, original, trash_path, size)`. -/
structure MovedItem where
  trash_id : String
  short_id : String
  original_path : String
  trash_path : String
  size : Nat
deriving DecidableEq, Repr

structure RunEnv where
  force : Bool
  /-- `fs2::available_space(trash_dir)`. -/
  available : Nat
  trashDirPath : String
  /-- the short ids of pre-existing records (line 663); never extended
  during the run, exactly as in the source. -/
  existingShortIds : List String
  /-- cooperative cancellation: the index of the first poll that reads
  the flag set (polls are numbered: poll `i` is the top of loop iteration
  `i`, poll `#items` is the post-loop check at line 787; the `AtomicBool`
  is set once and stays set, so every later poll also reads true). -/
  intrIdx : Option Nat
  /-- outcome of `safe_move_with_progress(abs_path, trash_path)` for item
  index `i`. -/
  moveOk : Nat → Bool
  /-- outcome of `atomic_save_meta` for item index `i`. -/
  metaOk : Nat → Bool
  /-- outcome of the best-effort move of a quarantined copy back to its
  original (lines 730 and 796), keyed by the trash path. -/
  rbMoveOk : String → Bool
  /-- the `SystemTime` nanosecond timestamp drawn for item index `i`. -/
  ts : Nat → Nat

/-- The value read by cancellation poll number `j`. -/
def flagAt (env : RunEnv) (j : Nat) : Bool :=
  match env.intrIdx with
  | some i => decide (i ≤ j)
  | none => false

def trashIdFor (env : RunEnv) (e : PathEnv) (i : Nat) : String :=
  fileName e.path ++ "_" ++ toString (env.ts i)

def trashPathFor (env : RunEnv) (e : PathEnv) (i : Nat) : String :=
  env.trashDirPath ++ "/" ++ trashIdFor env e i

/-- Mutable state of the relocation loop and rollback: the `moved` and
`failed` vectors, the filesystem contents it governs (paths currently
present under `trash/`, trash ids with a persisted `.meta` record,
original paths restored by compensating moves), and the event trace. -/
structure LoopState where
  moved : List MovedItem
  failed : List (String × String)
  trashSet : List String
  metaSet : List String
  restored : List String
  trace : List BatchEv
deriving DecidableEq, Repr

/-- The relocation loop (lines 687-773), starting at loop counter `i`. -/
def relocLoop (env : RunEnv) :
    Nat → List (PathEnv × SymMeta × FileType × Nat) → LoopState → LoopState
  | _, [], st => st
  | i, (e, _, ft, size) :: rest, st =>
    if flagAt env i then st
    else
      let trash_id := trashIdFor env e i
      let trash_path := trashPathFor env e i
      let short_id := generate_short_id trash_id ft env.existingShortIds
      if env.moveOk i then
        let st1 : LoopState :=
          { st with trashSet := st.trashSet ++ [trash_path],
                    trace := st.trace ++ [BatchEv.relocate e.path trash_path] }
        if env.metaOk i then
          relocLoop env (i + 1) rest { st1 with
            moved := st1.moved ++ [MovedItem.mk trash_id short_id e.path trash_path size],
            metaSet := st1.metaSet ++ [trash_id],
            trace := st1.trace ++ [BatchEv.saveMeta trash_id] }
        else
          relocLoop env (i + 1) rest { st1 with
            trashSet := if env.rbMoveOk trash_path then
                          st1.trashSet.filter (· ≠ trash_path)
                        else st1.trashSet,
            restored := if env.rbMoveOk trash_path then st1.restored ++ [e.path]
                        else st1.restored,
            failed := st1.failed ++ [(e.path, "Metadata save failed")],
            trace := st1.trace ++ [BatchEv.moveBack trash_path e.path] }
      else
        relocLoop env (i + 1) rest { st with
          failed := st.failed ++ [(e.path, "relocation failed")],
          trace := st.trace ++ [BatchEv.relocate e.path trash_path] }

/-- The rollback loop (lines 791-803), fed `moved` in reverse. -/
def rollbackLoop (env : RunEnv) : List MovedItem → LoopState → LoopState
  | [], st => st
  | it :: rest, st =>
    if st.trashSet.contains it.trash_path then
      rollbackLoop env rest { st with
        trashSet := if env.rbMoveOk it.trash_path then
                      st.trashSet.filter (· ≠ it.trash_path)
                    else st.trashSet,
        restored := if env.rbMoveOk it.trash_path then
                      st.restored ++ [it.original_path]
                    else st.restored,
        metaSet := st.metaSet.filter (· ≠ it.trash_id),
        trace := st.trace ++ [BatchEv.moveBack it.trash_path it.original_path,
                              BatchEv.removeMetaFile it.trash_id] }
    else rollbackLoop env rest st

inductive AbortKind
  | traversal
  | space
deriving DecidableEq, Repr

structure BatchOut where
  skipped : List (String × String)
  final : LoopState
  /-- `some n` exactly when the interrupted branch ran, with the reported
  rollback count `n`. -/
  rollbackCount : Option Nat
deriving DecidableEq, Repr

/-- The loop state at entry of the relocation loop: empty vectors, the
trace already holding the admission events and the one batch-total space
check (line 638). -/
def batchSt0 (env : RunEnv) (paths : List PathEnv) : LoopState :=
  ⟨[], [], [], [], [],
    (admissionPhase env.force env.available paths).2.2.2 ++
    [BatchEv.checkSpace (admissionPhase env.force env.available paths).2.2.1 false]⟩

/-- The loop state after the relocation loop over the admitted items. -/
def batchSt (env : RunEnv) (paths : List PathEnv) : LoopState :=
  relocLoop env 0 (admissionPhase env.force env.available paths).1 (batchSt0 env paths)

/-- `handle_delete_batch(paths, _, force, ..)`: `.error` models
`std::process::exit(1)` (traversal pre-scan, line 547, and failed batch
space check, line 640), reached with zero filesystem mutation. -/
def handle_delete_batch (env : RunEnv) (paths : List PathEnv) :
    Except AbortKind BatchOut :=
  if env.force = false && paths.any (fun e => looksLikeTraversal e.path) then
    .error .traversal
  else
    match check_disk_space env.available
        (admissionPhase env.force env.available paths).2.2.1 false with
    | Except.error _ => Except.error AbortKind.space
    | Except.ok _ =>
      if flagAt env (admissionPhase env.force env.available paths).1.length then
        Except.ok ⟨(admissionPhase env.force env.available paths).2.1,
          rollbackLoop env (batchSt env paths).moved.reverse (batchSt env paths),
          some (batchSt env paths).moved.length⟩
      else
        Except.ok ⟨(admissionPhase env.force env.available paths).2.1,
          batchSt env paths, none⟩

/-! ## Claim C6 — the space admission multiplier -/

/-- **C6.** The space admission check, given required bytes `R` and
available bytes `A` (positive; `A = 0` is the separate "no disk space"
error), requires exactly `R` bytes free when `R` is below 100 MiB and
requires 120% of `R` (`R * 120 / 100`, overflow-checked) when `R` is at
or above that threshold, and returns an explicit overflow error — not a
wrapped value — when `R * 120` exceeds `u64::MAX`. -/
theorem C6_multiplier_and_overflow (A R : Nat) (hA : 0 < A) :
    (R < 100 * 1024 * 1024 →
      (check_disk_space A R false = .ok () ↔ R ≤ A)) ∧
    (100 * 1024 * 1024 ≤ R → R * 120 ≤ U64MAX →
      (check_disk_space A R false = .ok () ↔ R * 120 / 100 ≤ A)) ∧
    (U64MAX < R * 120 →
      check_disk_space A R false = .error SpaceErr.overflow) := by
  have hA0 : ¬ (A = 0) := by omega
  have hU : U64MAX = 18446744073709551615 := rfl
  have hnf : ¬ ((false = true) ∧ maxAllowed A < R) := by simp
  refine ⟨?_, ?_, ?_⟩
  · intro hR
    simp only [check_disk_space, if_neg hA0, if_pos hR]
    rw [if_neg hnf]
    by_cases hle : R ≤ A
    · rw [if_neg (show ¬ A < R by omega)]; simp [hle]
    · rw [if_pos (show A < R by omega)]; simp [hle]
  · intro hR hOv
    simp only [check_disk_space, if_neg hA0,
      if_neg (show ¬ R < 100 * 1024 * 1024 by omega), if_pos hOv]
    rw [if_neg hnf]
    by_cases hle : R * 120 / 100 ≤ A
    · rw [if_neg (show ¬ A < R * 120 / 100 by omega)]; simp [hle]
    · rw [if_pos (show A < R * 120 / 100 by omega)]; simp [hle]
  · intro hOv
    simp only [check_disk_space, if_neg hA0,
      if_neg (show ¬ R < 100 * 1024 * 1024 by omega),
      if_neg (show ¬ R * 120 ≤ U64MAX by omega)]

/-- Witness for C6 at `A = 5`, `R = 3`. -/
theorem C6_multiplier_and_overflow_witness :
    (3 < 100 * 1024 * 1024 →
      (check_disk_space 5 3 false = .ok () ↔ 3 ≤ 5)) ∧
    (100 * 1024 * 1024 ≤ 3 → 3 * 120 ≤ U64MAX →
      (check_disk_space 5 3 false = .ok () ↔ 3 * 120 / 100 ≤ 5)) ∧
    (U64MAX < 3 * 120 →
      check_disk_space 5 3 false = .error SpaceErr.overflow) :=
  C6_multiplier_and_overflow 5 3 (by decide)

/-! ## Claim C2 — atomic metadata creation -/

theorem meta_ne_tmp (name : String) : name ++ ".meta" ≠ name ++ ".meta.tmp" := by
  intro h
  have hl := congrArg String.length h
  have h5 : (".meta" : String).length = 5 := rfl
  have h9 : (".meta.tmp" : String).length = 9 := rfl
  rw [String.length_append, String.length_append, h5, h9] at hl
  omega

/-- **C2.** `atomic_save_meta` writes the serialized record to
`<name>.meta.tmp`, syncs it, and renames it onto `<name>.meta`; in every
store state observable during the operation (including after a crash at
any point), the final record name `<name>.meta` either does not exist or
holds the complete serialized record — never a partial write. -/
theorem C2_atomic_save_never_partial (name : String) (m : FileMeta)
    (st0 : String → Option String) (h0 : st0 (name ++ ".meta") = none) :
    ∀ st ∈ saveMetaStates name m st0,
      st (name ++ ".meta") = none ∨
      st (name ++ ".meta") = some (serializeMeta m) := by
  intro st hst
  have hne := meta_ne_tmp name
  simp only [saveMetaStates] at hst
  rcases List.mem_append.mp hst with h1 | h1
  · rcases List.mem_append.mp h1 with h2 | h2
    · rcases List.mem_cons.mp h2 with rfl | h3
      · exact Or.inl h0
      · rcases List.mem_cons.mp h3 with rfl | h4
        · exact Or.inl (by simp only [mupd, if_neg hne]; exact h0)
        · exact absurd h4 (List.not_mem_nil _)
    · obtain ⟨k, _, rfl⟩ := List.mem_map.mp h2
      exact Or.inl (by simp only [mupd, if_neg hne]; exact h0)
  · rcases List.mem_cons.mp h1 with rfl | h4
    · exact Or.inr (by simp [mupd])
    · exact absurd h4 (List.not_mem_nil _)

/-- Witness for C2: a concrete record saved into an empty store. -/
theorem C2_atomic_save_never_partial_witness :
    ((fun _ => (none : Option String)) ("rec1" ++ ".meta") = none) ∧
    ∀ st ∈ saveMetaStates "rec1"
        ⟨"/home/u/a", "/t/trash/a_1", "2026-01-01 00:00:00", 7, .File,
          some 420, some 1000, some 1000, "fabcdef", 3⟩
        (fun _ => none),
      st ("rec1" ++ ".meta") = none ∨
      st ("rec1" ++ ".meta") =
        some (serializeMeta
          ⟨"/home/u/a", "/t/trash/a_1", "2026-01-01 00:00:00", 7, .File,
            some 420, some 1000, some 1000, "fabcdef", 3⟩) :=
  ⟨rfl, C2_atomic_save_never_partial "rec1" _ (fun _ => none) rfl⟩

/-! ## Claim C3 — validated, self-healing enumeration -/

/-- Inversion for a kept entry: `scanEntry` keeps `(nm, meta)` only when
the name stripped, the content read, the parse succeeded, both validation
questions answered positively, and `meta` is the parsed record with the
`short_id` backfill applied. -/
theorem scanEntry_keep_inv (env : MetaEnv) (td : String) (e : MetaDirEntry)
    (nm : String) (meta : FileMeta)
    (hs : scanEntry env td e = .keep nm meta) :
    ∃ c m0, stripMetaSuffix e.fileName = some nm ∧ e.content = some c ∧
      env.parse c = some m0 ∧
      env.pathExists m0.trash_path = true ∧ env.sameFs m0.trash_path td = true ∧
      meta = (if m0.short_id = "" then { m0 with short_id := nm } else m0) := by
  rcases h1 : stripMetaSuffix e.fileName with _ | nm'
  · simp [scanEntry, h1] at hs
  rcases h2 : e.content with _ | c
  · simp [scanEntry, h1, h2] at hs
  rcases h3 : env.parse c with _ | m0
  · simp [scanEntry, h1, h2, h3] at hs
  simp only [scanEntry, h1, h2, h3] at hs
  split at hs
  · exact absurd hs (by simp)
  · next hv =>
    push_neg at hv
    obtain ⟨hn, hm⟩ := (MetaScan.keep.injEq _ _ _ _).mp hs
    subst hn
    refine ⟨c, m0, rfl, rfl, h3, ?_, ?_, hm.symm⟩
    · cases hpe : env.pathExists m0.trash_path with
      | true => rfl
      | false => exact absurd hpe hv.1
    · cases hsf : env.sameFs m0.trash_path td with
      | true => rfl
      | false => exact absurd hsf hv.2

/-- **C3.** Enumeration (i) returns only records whose `trash_path`
exists and is on the same device as the quarantine root, (ii) purges
every record that fails to deserialize or fails that validation instead
of returning it, and (iii) returns each kept record exactly as parsed
except that an empty stored `short_id` is backfilled from the record's
file-name key. -/
theorem C3_enumeration_validates_and_heals (env : MetaEnv) (td : String)
    (entries : List MetaDirEntry) :
    (∀ p ∈ (list_all_meta env td entries).1,
        env.pathExists p.2.trash_path = true ∧ env.sameFs p.2.trash_path td = true) ∧
    (∀ e ∈ entries, ∀ name, stripMetaSuffix e.fileName = some name →
      ∀ c, e.content = some c →
        (env.parse c = none → name ∈ (list_all_meta env td entries).2) ∧
        (∀ m, env.parse c = some m →
          (env.pathExists m.trash_path = false ∨ env.sameFs m.trash_path td = false) →
          name ∈ (list_all_meta env td entries).2)) ∧
    (∀ p ∈ (list_all_meta env td entries).1,
      ∃ e ∈ entries, ∃ c m0,
        stripMetaSuffix e.fileName = some p.1 ∧ e.content = some c ∧
        env.parse c = some m0 ∧
        p.2 = (if m0.short_id = "" then { m0 with short_id := p.1 } else m0)) := by
  induction entries with
  | nil => exact ⟨by simp [list_all_meta], by simp, by simp [list_all_meta]⟩
  | cons e rest ih =>
    obtain ⟨ih1, ih2, ih3⟩ := ih
    cases hs : scanEntry env td e with
    | keep nm meta =>
      obtain ⟨c0, m0, hn0, hc0, hp0, hv1, hv2, hb0⟩ := scanEntry_keep_inv env td e nm meta hs
      refine ⟨?_, ?_, ?_⟩
      · intro p hp
        simp only [list_all_meta, hs] at hp
        rcases List.mem_cons.mp hp with rfl | hp
        · subst hb0
          constructor <;> (split <;> simp_all)
        · exact ih1 p hp
      · intro e' he' nm' hnm c hc
        simp only [list_all_meta, hs]
        rcases List.mem_cons.mp he' with rfl | he'
        · refine ⟨fun hparse => ?_, fun m hm hbad => ?_⟩
          · rw [hnm] at hn0
            rw [hc] at hc0
            cases hc0
            rw [hparse] at hp0
            cases hp0
          · rw [hnm] at hn0
            rw [hc] at hc0
            cases hc0
            rw [hm] at hp0
            cases hp0
            rcases hbad with hb | hb
            · rw [hb] at hv1; cases hv1
            · rw [hb] at hv2; cases hv2
        · exact ih2 e' he' nm' hnm c hc
      · intro p hp
        simp only [list_all_meta, hs] at hp ⊢
        rcases List.mem_cons.mp hp with rfl | hp
        · exact ⟨e, List.mem_cons_self e rest, c0, m0, hn0, hc0, hp0, hb0⟩
        · obtain ⟨e', he', c, m0', h⟩ := ih3 p hp
          exact ⟨e', List.mem_cons_of_mem e he', c, m0', h⟩
    | purge nm =>
      refine ⟨?_, ?_, ?_⟩
      · intro p hp
        simp only [list_all_meta, hs] at hp
        exact ih1 p hp
      · intro e' he' nm' hnm c hc
        simp only [list_all_meta, hs]
        rcases List.mem_cons.mp he' with rfl | he'
        · -- the head entry scans to a purge; its stripped name is `nm`,
          -- which must equal `nm'` by determinism of the scan
          have : nm' = nm := by
            rcases h3 : env.parse c with _ | m0
            · simp only [scanEntry, hnm, hc, h3] at hs
              exact (MetaScan.purge.injEq _ _).mp hs
            · simp only [scanEntry, hnm, hc, h3] at hs
              split at hs
              · exact (MetaScan.purge.injEq _ _).mp hs
              · exact absurd hs (by simp)
          subst this
          exact ⟨fun _ => List.mem_cons_self _ _, fun m _ _ => List.mem_cons_self _ _⟩
        · obtain ⟨k1, k2⟩ := ih2 e' he' nm' hnm c hc
          exact ⟨fun h => List.mem_cons_of_mem _ (k1 h),
                 fun m hm hb => List.mem_cons_of_mem _ (k2 m hm hb)⟩
      · intro p hp
        simp only [list_all_meta, hs] at hp
        obtain ⟨e', he', c, m0', h⟩ := ih3 p hp
        exact ⟨e', List.mem_cons_of_mem e he', c, m0', h⟩
    | skipEntry =>
      refine ⟨?_, ?_, ?_⟩
      · intro p hp
        simp only [list_all_meta, hs] at hp
        exact ih1 p hp
      · intro e' he' nm' hnm c hc
        simp only [list_all_meta, hs]
        rcases List.mem_cons.mp he' with rfl | he'
        · -- impossible: with a stripped name and read content the scan
          -- is a keep or a purge, never a skip
          exfalso
          rcases h3 : env.parse c with _ | m0
          · simp [scanEntry, hnm, hc, h3] at hs
          · simp only [scanEntry, hnm, hc, h3] at hs
            split at hs <;> exact absurd hs (by simp)
        · exact ih2 e' he' nm' hnm c hc
      · intro p hp
        simp only [list_all_meta, hs] at hp
        obtain ⟨e', he', c, m0', h⟩ := ih3 p hp
        exact ⟨e', List.mem_cons_of_mem e he', c, m0', h⟩

def cMetaC3 : FileMeta :=
  ⟨"/home/u/f", "/t/x", "2026-01-01 00:00:00", 7, .File,
    some 420, some 1000, some 1000, "", 3⟩

def cEnvC3 : MetaEnv :=
  ⟨fun s => if s = "ok" then some cMetaC3 else none,
   fun p => decide (p = "/t/x"),
   fun p d => decide (p = "/t/x" ∧ d = "/T")⟩

def cEntriesC3 : List MetaDirEntry :=
  [⟨"good.meta", some "ok"⟩, ⟨"bad.meta", some "junk"⟩]

example : (list_all_meta cEnvC3 "/T" cEntriesC3).1 =
    [("good", { cMetaC3 with short_id := "good" })] := by decide

example : (list_all_meta cEnvC3 "/T" cEntriesC3).2 = ["bad"] := by decide

/-- Witness for C3: in a store with a valid record (`good.meta`, with an
empty `short_id`) and an unparsable one (`bad.meta`), the claim's purge
clause applied to the unparsable entry puts `bad` in the purged list. -/
theorem C3_enumeration_validates_and_heals_witness :
    "bad" ∈ (list_all_meta cEnvC3 "/T" cEntriesC3).2 :=
  ((C3_enumeration_validates_and_heals cEnvC3 "/T" cEntriesC3).2.1
    ⟨"bad.meta", some "junk"⟩
    (List.mem_cons_of_mem _ (List.mem_cons_self _ _))
    "bad" (by decide) "junk" rfl).1 (by decide)

/-! ## Claim C7 — the 80%-of-available single-item boundary

The rule is `required_bytes > (available as f64 * 0.8) as u64` (line
514).  The `f64` computation is exact below `2^53`, where the claim
holds; but `available = 2^53 + 3` (the first multiple of 5 past `2^53`)
already rounds twice — `fl(a) = 2^53 + 4`, and `fl(fl(a) * fl(0.8))`
truncates to `4*a/5 + 1` — so a request of exactly 80% + 1 byte passes
the rule there, refuting the claim as stated.  The claim is therefore
amended with the bound `available ≤ 2^53`. -/

/-- **C7 counterexample.** At `available = 9007199254740995` (= 2^53+3, a
multiple of 5) a single-file request of exactly 80% of available space
plus one byte — `7205759403792797 = 4*available/5 + 1` — is *accepted* by
`check_disk_space`, not rejected with an insufficient-space error. -/
theorem C7_boundary_counterexample :
    7205759403792797 = 4 * 9007199254740995 / 5 + 1 ∧
    check_disk_space 9007199254740995 7205759403792797 true = .ok () := by
  constructor
  · decide
  · rfl

theorem f64ofU64_exact (a : Nat) (h : a ≤ 2 ^ 53) : f64ofU64 a = (a, 0) := by
  rcases Nat.lt_or_ge a (2 ^ 53) with hlt | hge
  · by_cases h0 : a = 0
    · subst h0; rfl
    · have hlog : log2N a < 53 := by
        by_contra hc
        have : (2:Nat) ^ 53 ≤ 2 ^ log2N a :=
          Nat.pow_le_pow_right (by norm_num) (by omega)
        have := (log2N_bounds a (by omega)).1
        omega
      unfold f64ofU64 roundDyadic
      rw [if_neg h0, if_pos (by omega : log2N a ≤ 52)]
  · have ha : a = 2 ^ 53 := by omega
    subst ha
    decide

/-- The exact value of `(5*b as f64 * 0.8) as u64`: for `5*b ≤ 2^53` the
one rounding in the multiplication always rounds down onto `4*b`. -/
theorem maxAllowed_five_mul (b : Nat) (h0 : 0 < b) (hb : 5 * b ≤ 2 ^ 53) :
    maxAllowed (5 * b) = 4 * b := by
  have hb51 : b < 2 ^ 51 := by
    have h53 : (2:Nat) ^ 53 = 9007199254740992 := by norm_num
    have h51 : (2:Nat) ^ 51 = 2251799813685248 := by norm_num
    omega
  unfold maxAllowed
  rw [f64ofU64_exact _ hb]
  unfold f64Mul lit08
  dsimp only
  have hp : 5 * b * 3602879701896397 = b * (2 ^ 54 + 1) := by ring
  rw [hp]
  set Lb := log2N b with hLbdef
  have hbne : b ≠ 0 := by omega
  obtain ⟨hb1, hb2⟩ := log2N_bounds b h0
  rw [← hLbdef] at hb1 hb2
  have hLb50 : Lb ≤ 50 := by
    by_contra hc
    have : (2:Nat) ^ 51 ≤ 2 ^ Lb := Nat.pow_le_pow_right (by norm_num) (by omega)
    omega
  have hpne : b * (2 ^ 54 + 1) ≠ 0 := by positivity
  have hL : log2N (b * (2 ^ 54 + 1)) = 54 + Lb := by
    refine log2N_eq (54 + Lb) _ ?_ ?_
    · calc (2:Nat) ^ (54 + Lb) = 2 ^ Lb * 2 ^ 54 := by rw [pow_add]; ring
      _ ≤ b * 2 ^ 54 := Nat.mul_le_mul_right _ hb1
      _ ≤ b * (2 ^ 54 + 1) := Nat.mul_le_mul_left _ (by omega)
    · calc b * (2 ^ 54 + 1) = b * 2 ^ 54 + b := by ring
      _ < b * 2 ^ 54 + 2 ^ (Lb + 1) := by omega
      _ ≤ b * 2 ^ 54 + 2 ^ 54 :=
          Nat.add_le_add_left (Nat.pow_le_pow_right (by norm_num) (by omega)) _
      _ = (b + 1) * 2 ^ 54 := by ring
      _ ≤ 2 ^ (Lb + 1) * 2 ^ 54 := Nat.mul_le_mul_right _ (by omega)
      _ = 2 ^ (54 + Lb + 1) := by rw [← pow_add]; ring_nf
  unfold roundDyadic
  rw [if_neg hpne, hL, if_neg (by omega : ¬ 54 + Lb ≤ 52)]
  have hd : 54 + Lb - 52 = Lb + 2 := by omega
  rw [hd]
  unfold roundMant
  have hsplit : b * (2 ^ 54 + 1) = b + (b * 2 ^ (52 - Lb)) * 2 ^ (Lb + 2) := by
    have : (2:Nat) ^ (52 - Lb) * 2 ^ (Lb + 2) = 2 ^ 54 := by
      rw [← pow_add]
      congr 1
      omega
    calc b * (2 ^ 54 + 1) = b + b * 2 ^ 54 := by ring
    _ = b + b * (2 ^ (52 - Lb) * 2 ^ (Lb + 2)) := by rw [this]
    _ = b + (b * 2 ^ (52 - Lb)) * 2 ^ (Lb + 2) := by ring
  have hblt : b < 2 ^ (Lb + 2) :=
    lt_of_lt_of_le hb2 (Nat.pow_le_pow_right (by norm_num) (by omega))
  have hq0 : b * (2 ^ 54 + 1) / 2 ^ (Lb + 2) = b * 2 ^ (52 - Lb) := by
    rw [hsplit, Nat.add_mul_div_right _ _ (Nat.pos_pow_of_pos _ (by norm_num)),
      Nat.div_eq_of_lt hblt, Nat.zero_add]
  have hr : b * (2 ^ 54 + 1) % 2 ^ (Lb + 2) = b := by
    rw [hsplit, Nat.add_mul_mod_self_right, Nat.mod_eq_of_lt hblt]
  rw [hq0, hr]
  have hnoup : ¬ (2 ^ (Lb + 2 - 1) < b ∨
      (b = 2 ^ (Lb + 2 - 1) ∧ b * 2 ^ (52 - Lb) % 2 = 1)) := by
    have h21 : Lb + 2 - 1 = Lb + 1 := by omega
    rw [h21]
    push_neg
    exact ⟨by omega, fun hbe => absurd hbe (by omega)⟩
  rw [if_neg hnoup]
  unfold f64toU64
  dsimp only
  have hfin : b * 2 ^ (52 - Lb) * 2 ^ (Lb + 2) / 2 ^ 52 = 4 * b := by
    have : b * 2 ^ (52 - Lb) * 2 ^ (Lb + 2) = 4 * b * 2 ^ 52 := by
      rw [mul_assoc, ← pow_add]
      have : 52 - Lb + (Lb + 2) = 54 := by omega
      rw [this]
      have : (2:Nat) ^ 54 = 4 * 2 ^ 52 := by norm_num
      rw [this]
      ring
    rw [this, Nat.mul_div_cancel _ (by positivity)]
  rw [hfin]
  have : 4 * b ≤ U64MAX := by
    have hU : U64MAX = 18446744073709551615 := rfl
    have h51 : (2:Nat) ^ 51 = 2251799813685248 := by norm_num
    omega
  omega

/-- **C7 (amended).** For available space `a ≤ 2^53` bytes (exactly
representable in `f64`, so the `0.8` rule computes `4*a/5` exactly) with
`a` a multiple of 5, a single-file request of exactly 80% of available
space passes the single-item 80% rule (and the whole check), while a
request of 80% plus one byte is rejected with the single-file
insufficient-space error before any admission; at or beyond `2^53 + 3`
the double rounding of `(a as f64) * 0.8` can accept the 80%+1 request
(see the counterexample). -/
theorem C7_eighty_percent_boundary (a b : Nat) (hab : a = 5 * b)
    (h0 : 0 < b) (hle : a ≤ 2 ^ 53) :
    check_disk_space a (4 * b) true = .ok () ∧
    check_disk_space a (4 * b + 1) true = .error SpaceErr.singleTooLarge := by
  subst hab
  have hmax : maxAllowed (5 * b) = 4 * b := maxAllowed_five_mul b h0 hle
  have hU : U64MAX = 18446744073709551615 := rfl
  have h53 : (2:Nat) ^ 53 = 9007199254740992 := by norm_num
  have hA0 : ¬ (5 * b = 0) := by omega
  have hsingle1 : ¬ ((true = true) ∧ maxAllowed (5 * b) < 4 * b) := by
    rw [hmax]; simp
  have hsingle2 : (true = true) ∧ maxAllowed (5 * b) < 4 * b + 1 := by
    rw [hmax]; exact ⟨rfl, by omega⟩
  constructor
  · by_cases hsmall : 4 * b < 100 * 1024 * 1024
    · simp only [check_disk_space, if_neg hA0, if_pos hsmall,
        if_neg (show ¬ 5 * b < 4 * b by omega)]
      rw [hmax, if_neg (by simp)]
    · simp only [check_disk_space, if_neg hA0, if_neg hsmall,
        if_pos (show 4 * b * 120 ≤ U64MAX by omega),
        if_neg (show ¬ 5 * b < 4 * b * 120 / 100 by omega)]
      rw [hmax, if_neg (by simp)]
  · by_cases hsmall : 4 * b + 1 < 100 * 1024 * 1024
    · simp only [check_disk_space, if_neg hA0, if_pos hsmall]
      rw [hmax, if_pos ⟨trivial, by omega⟩]
    · simp only [check_disk_space, if_neg hA0, if_neg hsmall,
        if_pos (show (4 * b + 1) * 120 ≤ U64MAX by omega)]
      rw [hmax, if_pos ⟨trivial, by omega⟩]

/-- Witness for C7 (amended) at `a = 10`, `b = 2`: a 9-byte single file
is rejected when 10 bytes are available, an 8-byte one passes. -/
theorem C7_eighty_percent_boundary_witness :
    check_disk_space 10 (4 * 2) true = .ok () ∧
    check_disk_space 10 (4 * 2 + 1) true = .error SpaceErr.singleTooLarge :=
  C7_eighty_percent_boundary 10 2 rfl (by decide) (by norm_num)

/-! ## Claim C5 — the source file is removed only after the copy completed -/

/-- Shape of `fast_file_copy` on a readable source: either an error with
no completed-copy event (and no removal), or success with exactly one
completed-copy event. -/
theorem fast_file_copy_shape (env : MoveEnv) (src dst : String)
    (hm : env.srcMetaOk = true) :
    (∃ e, fast_file_copy env src dst = (.error e, [])) ∨
    (∃ c, isCopyDone c = true ∧
      fast_file_copy env src dst = (.ok env.srcLen, [c])) := by
  rcases hrf : env.reflinkRes with e | b
  · exact Or.inl ⟨e, by simp [fast_file_copy, hm, hrf]⟩
  · cases b
    · by_cases hsf : (env.sameFs && env.hardLinkOk) = true
      · exact Or.inr ⟨.hardLinkMade src dst, rfl,
          by simp [fast_file_copy, hm, hrf, hsf]⟩
      · by_cases hbig : 10 * 1024 * 1024 < env.srcLen
        · rcases hmm : env.mmapRes with _ | e
          · exact Or.inr ⟨.mmapCopyDone src dst, rfl,
              by simp [fast_file_copy, hm, hrf, hsf, hbig, hmm]⟩
          · exact Or.inl ⟨e, by simp [fast_file_copy, hm, hrf, hsf, hbig, hmm]⟩
        · rcases hst : env.streamRes with _ | e
          · exact Or.inr ⟨.streamCopyDone src dst, rfl,
              by simp [fast_file_copy, hm, hrf, hsf, hbig, hst]⟩
          · exact Or.inl ⟨e, by simp [fast_file_copy, hm, hrf, hsf, hbig, hst]⟩
    · exact Or.inr ⟨.reflinkClone src dst, rfl, by simp [fast_file_copy, hm, hrf]⟩

/-- Shape of `safe_move_with_progress` on a regular file: an error with no
events, a bare rename, or a copy strategy — in which case the source
removal event, when present at all, is after the completed-copy event and
only in the success outcome. -/
theorem safe_move_file_shape (env : MoveEnv) (src dst : String)
    (hs : env.isSymlink = false) (hd : env.isDir = false) :
    (∃ e, safe_move_with_progress env src dst = (.error e, [])) ∨
    (safe_move_with_progress env src dst = (.ok env.srcLen, [.renameOk src dst])) ∨
    (∃ c, isCopyDone c = true ∧
      (safe_move_with_progress env src dst = (.error .other, [c]) ∨
       safe_move_with_progress env src dst =
         (.ok env.srcLen, [c, .removeSrcFile src]))) := by
  by_cases hm : env.srcMetaOk = false
  · exact Or.inl ⟨.other, by simp [safe_move_with_progress, hm]⟩
  · have hm' : env.srcMetaOk = true := by
      revert hm; cases env.srcMetaOk <;> simp
    by_cases hr : env.renameOk = true
    · exact Or.inr (Or.inl (by simp [safe_move_with_progress, hm, hr]))
    · rcases fast_file_copy_shape env src dst hm' with ⟨e, hsh⟩ | ⟨c, hc, hsh⟩
      · exact Or.inl ⟨e, by simp [safe_move_with_progress, hm, hr, hs, hd, hsh]⟩
      · by_cases hrm : env.removeSrcOk = true
        · exact Or.inr (Or.inr ⟨c, hc, Or.inr
            (by simp [safe_move_with_progress, hm, hr, hs, hd, hsh, hrm])⟩)
        · exact Or.inr (Or.inr ⟨c, hc, Or.inl
            (by simp [safe_move_with_progress, hm, hr, hs, hd, hsh, hrm])⟩)

/-- **C5.** For a regular-file relocation (the path that falls back from
rename to the copy strategies — reflink clone, hard link, mmap chunked
copy, or buffered streaming copy): if the move returns an error (a failed
or interrupted copy), the source file was never removed; and whenever the
source-removal event occurs in the trace, a completed-copy event strictly
precedes it. -/
theorem C5_remove_only_after_complete_copy (env : MoveEnv) (src dst : String)
    (hs : env.isSymlink = false) (hd : env.isDir = false)
    (res : Except IOErr Nat) (tr : List MoveEv)
    (hrun : safe_move_with_progress env src dst = (res, tr)) :
    (∀ e, res = .error e → MoveEv.removeSrcFile src ∉ tr) ∧
    (∀ pre post, tr = pre ++ MoveEv.removeSrcFile src :: post →
      ∃ c ∈ pre, isCopyDone c = true) := by
  rcases safe_move_file_shape env src dst hs hd with ⟨e0, hsh⟩ | hsh | ⟨c, hc, hsh | hsh⟩ <;>
    rw [hrun] at hsh <;>
    obtain ⟨hres, htr⟩ := Prod.mk.injEq .. |>.mp hsh <;>
    subst htr
  · refine ⟨fun _ _ => List.not_mem_nil _, fun pre post h => ?_⟩
    cases pre <;> simp at h
  · refine ⟨?_, ?_⟩
    · intro e he
      rw [hres] at he
      simp at he
    · intro pre post h
      exfalso
      rcases pre with _ | ⟨x, pre⟩
      · simp at h
      · simp only [List.cons_append, List.cons.injEq] at h
        cases pre <;> simp at h
  · refine ⟨?_, ?_⟩
    · intro e he hmem
      have hcr := List.mem_singleton.mp hmem
      rw [← hcr] at hc
      simp [isCopyDone] at hc
    · intro pre post h
      exfalso
      rcases pre with _ | ⟨x, pre⟩
      · simp only [List.nil_append, List.cons.injEq] at h
        rw [h.1] at hc
        simp [isCopyDone] at hc
      · simp only [List.cons_append, List.cons.injEq] at h
        cases pre <;> simp at h
  · refine ⟨?_, ?_⟩
    · intro e he
      rw [hres] at he
      simp at he
    · intro pre post h
      rcases pre with _ | ⟨x, pre⟩
      · exfalso
        simp only [List.nil_append, List.cons.injEq] at h
        rw [h.1] at hc
        simp [isCopyDone] at hc
      · simp only [List.cons_append, List.cons.injEq] at h
        rcases pre with _ | ⟨y, pre⟩
        · exact ⟨x, List.mem_cons_self x [], by rw [← h.1]; exact hc⟩
        · exfalso
          simp only [List.cons_append, List.cons.injEq] at h
          obtain ⟨_, _, h3⟩ := h
          cases pre <;> simp at h3

/-- Witness for C5: a buffered streaming copy that succeeds, followed by
source removal. -/
theorem C5_remove_only_after_complete_copy_witness :
    (∀ e, (Except.ok 5 : Except IOErr Nat) = .error e →
      MoveEv.removeSrcFile "/s/f" ∉
        [MoveEv.streamCopyDone "/s/f" "/t/f", MoveEv.removeSrcFile "/s/f"]) ∧
    (∀ pre post,
      ([MoveEv.streamCopyDone "/s/f" "/t/f", MoveEv.removeSrcFile "/s/f"]
          : List MoveEv) = pre ++ MoveEv.removeSrcFile "/s/f" :: post →
      ∃ c ∈ pre, isCopyDone c = true) :=
  C5_remove_only_after_complete_copy
    ⟨true, 5, false, false, false, .ok false, false, false, none, none,
      true, true, true, .ok 0⟩
    "/s/f" "/t/f" rfl rfl (.ok 5)
    [MoveEv.streamCopyDone "/s/f" "/t/f", MoveEv.removeSrcFile "/s/f"] rfl

/-! ## Claim C8 — policy violations: per-item versus batch-fatal

The source treats the two kinds of policy violation differently: a
protected system path is a per-item skip (lines 606-612), but a
traversal-looking path (containing `..` or starting with `-`) without
`-f` calls `std::process::exit(1)` (line 547), killing the whole batch
before anything — including perfectly deletable sibling items — is
processed.  That refutes the claim that both are non-fatal and per-item;
the amended claim keeps the per-item behaviour for protected paths and
records the batch-fatal behaviour for traversal-looking paths. -/

def dummySym : SymMeta := ⟨false, false, 3, 420, 1000, 1000⟩

/-- A benign deletable file. -/
def cGoodPath : PathEnv :=
  ⟨"/home/u/a", some dummySym, none, true, some dummySym, some "/home/u/a", none⟩

/-- A path containing a traversal segment. -/
def cTravPath : PathEnv :=
  ⟨"/home/u/x/../y", some dummySym, none, true, some dummySym,
    some "/home/u/y", none⟩

def cRunEnvC8 : RunEnv :=
  ⟨false, 1000000, "/T/trash", [], none,
    fun _ => true, fun _ => true, fun _ => true, fun i => i⟩

example : (admissionPhase false 1000000 [cGoodPath]).1.length = 1 := by decide

/-- **C8 counterexample.** A two-item batch whose second path merely looks
like traversal (`/home/u/x/../y`) aborts the whole process
(`process::exit(1)`) without force: the first, perfectly deletable item
is *not* processed, so a traversal policy violation is fatal to the
batch, not a per-item skip. -/
theorem C8_traversal_fatal_counterexample :
    handle_delete_batch cRunEnvC8 [cGoodPath, cTravPath] =
      .error AbortKind.traversal := by rfl

/-- A non-symlink item whose canonical path is under a protected root is
skipped with the protected-path reason and no admission events. -/
theorem admitItem_protected (force : Bool) (av : Nat) (e : PathEnv)
    (mf m2 : SymMeta) (c : String)
    (hf : force = false) (h1 : e.firstMeta = some mf)
    (h2 : mf.is_symlink = false) (h3 : e.pathExists = true)
    (h4 : e.sndMeta = some m2) (h5 : m2.is_symlink = false)
    (h6 : e.canonical = some c) (h7 : protectedCanonical c = true) :
    admitItem force av e =
      (.skip "Protected system path (use -f to override)", []) := by
  subst hf
  simp [admitItem, h1, h2, h3, h4, h5, h6, h7]

/-- Every path of the batch receives exactly one admission outcome: it is
either skipped with a reason or admitted — a skip never stops the
admission loop. -/
theorem admissionPhase_total (force : Bool) (av : Nat) :
    ∀ paths : List PathEnv, ∀ e ∈ paths,
      (∃ r, (e.path, r) ∈ (admissionPhase force av paths).2.1) ∨
      (∃ m ft sz, (e, m, ft, sz) ∈ (admissionPhase force av paths).1) := by
  intro paths
  induction paths with
  | nil => intro e he; exact absurd he (List.not_mem_nil _)
  | cons p rest ih =>
    intro e he
    rcases List.mem_cons.mp he with rfl | he
    · rcases ha : admitItem force av e with ⟨r | ⟨m, ft, sz⟩, ev⟩
      · exact Or.inl ⟨r, by simp [admissionPhase, ha]⟩
      · exact Or.inr ⟨m, ft, sz, by simp [admissionPhase, ha]⟩
    · rcases ih e he with ⟨r, hr⟩ | ⟨m, ft, sz, hm⟩
      · refine Or.inl ⟨r, ?_⟩
        rcases ha : admitItem force av p with ⟨r2 | ⟨m2, ft2, sz2⟩, ev⟩ <;>
          simp [admissionPhase, ha, hr]
      · refine Or.inr ⟨m, ft, sz, ?_⟩
        rcases ha : admitItem force av p with ⟨r2 | ⟨m2, ft2, sz2⟩, ev⟩ <;>
          simp [admissionPhase, ha, hm]

/-- A skipped item's path/reason pair lands in the skipped report. -/
theorem admissionPhase_skip_mem (force : Bool) (av : Nat) :
    ∀ paths : List PathEnv, ∀ e ∈ paths, ∀ r evs,
      admitItem force av e = (.skip r, evs) →
      (e.path, r) ∈ (admissionPhase force av paths).2.1 := by
  intro paths
  induction paths with
  | nil => intro e he; exact absurd he (List.not_mem_nil _)
  | cons p rest ih =>
    intro e he r evs ha
    rcases List.mem_cons.mp he with rfl | he
    · simp [admissionPhase, ha]
    · have := ih e he r evs ha
      rcases hp : admitItem force av p with ⟨r2 | ⟨m2, ft2, sz2⟩, ev⟩ <;>
        simp [admissionPhase, hp, this]

/-- **C8 (amended).** Without the force override: a *traversal-looking*
path anywhere in the batch aborts the entire batch before any mutation
(`process::exit(1)`), contrary to per-item handling; whereas a *protected
system path* is a per-item, pre-mutation skip — it is reported in the
batch's skipped list with its reason, produces no admission events, is
non-fatal, and every other item of the batch still receives its own
admission outcome. -/
theorem C8_policy_violation_scope (env : RunEnv) (paths : List PathEnv)
    (hforce : env.force = false) :
    ((∃ e ∈ paths, looksLikeTraversal e.path = true) →
      handle_delete_batch env paths = .error AbortKind.traversal) ∧
    ((∀ e ∈ paths, looksLikeTraversal e.path = false) →
      check_disk_space env.available
        (admissionPhase env.force env.available paths).2.2.1 false = .ok () →
      ∃ bo, handle_delete_batch env paths = .ok bo ∧
        bo.skipped = (admissionPhase env.force env.available paths).2.1 ∧
        (∀ e ∈ paths, ∀ mf m2 c,
          e.firstMeta = some mf → mf.is_symlink = false → e.pathExists = true →
          e.sndMeta = some m2 → m2.is_symlink = false → e.canonical = some c →
          protectedCanonical c = true →
          admitItem env.force env.available e =
            (.skip "Protected system path (use -f to override)", []) ∧
          (e.path, "Protected system path (use -f to override)") ∈ bo.skipped) ∧
        (∀ e ∈ paths,
          (∃ r, (e.path, r) ∈ bo.skipped) ∨
          (∃ m ft sz, (e, m, ft, sz) ∈
            (admissionPhase env.force env.available paths).1))) := by
  constructor
  · rintro ⟨e, he, ht⟩
    have hcond : (decide (env.force = false) &&
        paths.any fun e => looksLikeTraversal e.path) = true := by
      rw [hforce]
      simp only [decide_True, Bool.true_and, List.any_eq_true]
      exact ⟨e, he, ht⟩
    unfold handle_delete_batch
    rw [hcond]
    rfl
  · intro hno hspace
    have hcond : (decide (env.force = false) &&
        paths.any fun e => looksLikeTraversal e.path) = false := by
      simp only [Bool.and_eq_false_iff, List.any_eq_false]
      exact Or.inr (fun e he => by rw [hno e he]; simp)
    have hout : ∃ bo, handle_delete_batch env paths = .ok bo ∧
        bo.skipped = (admissionPhase env.force env.available paths).2.1 := by
      unfold handle_delete_batch
      rw [hcond]
      simp only [Bool.false_eq_true, if_false, hspace]
      by_cases hfl : flagAt env (admissionPhase env.force env.available paths).1.length = true
      · rw [if_pos hfl]
        exact ⟨_, rfl, rfl⟩
      · rw [if_neg hfl]
        exact ⟨_, rfl, rfl⟩
    obtain ⟨bo, hbo, hsk⟩ := hout
    refine ⟨bo, hbo, hsk, ?_, ?_⟩
    · intro e he mf m2 c h1 h2 h3 h4 h5 h6 h7
      have hskip := admitItem_protected env.force env.available e mf m2 c
        hforce h1 h2 h3 h4 h5 h6 h7
      exact ⟨hskip, by
        rw [hsk]
        exact admissionPhase_skip_mem env.force env.available paths e he _ _ hskip⟩
    · intro e he
      rw [hsk]
      exact admissionPhase_total env.force env.available paths e he

/-- Witness for C8 (amended): a batch of one benign file and one
protected file (`/etc/passwd`). -/
def cProtPath : PathEnv :=
  ⟨"/etc/passwd", some dummySym, none, true, some dummySym,
    some "/etc/passwd", none⟩

theorem C8_policy_violation_scope_witness :
    ((∃ e ∈ [cGoodPath, cProtPath], looksLikeTraversal e.path = true) →
      handle_delete_batch cRunEnvC8 [cGoodPath, cProtPath] =
        .error AbortKind.traversal) ∧
    ((∀ e ∈ [cGoodPath, cProtPath], looksLikeTraversal e.path = false) →
      check_disk_space cRunEnvC8.available
        (admissionPhase cRunEnvC8.force cRunEnvC8.available
          [cGoodPath, cProtPath]).2.2.1 false = .ok () →
      ∃ bo, handle_delete_batch cRunEnvC8 [cGoodPath, cProtPath] = .ok bo ∧
        bo.skipped = (admissionPhase cRunEnvC8.force cRunEnvC8.available
          [cGoodPath, cProtPath]).2.1 ∧
        (∀ e ∈ [cGoodPath, cProtPath], ∀ mf m2 c,
          e.firstMeta = some mf → mf.is_symlink = false → e.pathExists = true →
          e.sndMeta = some m2 → m2.is_symlink = false → e.canonical = some c →
          protectedCanonical c = true →
          admitItem cRunEnvC8.force cRunEnvC8.available e =
            (.skip "Protected system path (use -f to override)", []) ∧
          (e.path, "Protected system path (use -f to override)") ∈ bo.skipped) ∧
        (∀ e ∈ [cGoodPath, cProtPath],
          (∃ r, (e.path, r) ∈ bo.skipped) ∨
          (∃ m ft sz, (e, m, ft, sz) ∈
            (admissionPhase cRunEnvC8.force cRunEnvC8.available
              [cGoodPath, cProtPath]).1))) :=
  C8_policy_violation_scope cRunEnvC8 [cGoodPath, cProtPath] rfl

/-! ## Claim C10 — which items get the per-item space check -/

theorem admitSize_events_shape (av : Nat) (e : PathEnv) (m : SymMeta)
    (ft : FileType) :
    ∀ ev ∈ (admitSize av e m ft).2,
      ∃ n, ev = BatchEv.checkSpace n true ∧ 0 < n ∧ ft ≠ FileType.Dir := by
  intro ev h
  unfold admitSize at h
  split at h
  · exact absurd h (List.not_mem_nil _)
  · split at h
    · next hcond =>
      split at h <;>
      · rw [List.mem_singleton] at h
        exact ⟨_, h, hcond.2, hcond.1⟩
    · exact absurd h (List.not_mem_nil _)

theorem admitItem_events_shape (force : Bool) (av : Nat) (e : PathEnv) :
    ∀ ev ∈ (admitItem force av e).2,
      ∃ n m2, ev = BatchEv.checkSpace n true ∧ 0 < n ∧
        e.sndMeta = some m2 ∧ (m2.is_symlink = true ∨ m2.is_dir = false) := by
  intro ev h
  simp only [admitItem] at h
  split at h
  · exact absurd h (List.not_mem_nil _)
  · split at h
    · exact absurd h (List.not_mem_nil _)
    · split at h
      · exact absurd h (List.not_mem_nil _)
      · next m heq =>
        have hsize : ∀ ft, ft ≠ FileType.Dir →
            (∀ ev2 ∈ (admitSize av e m ft).2,
              ∃ n, ev2 = BatchEv.checkSpace n true ∧ 0 < n) := by
          intro ft _ ev2 h2
          obtain ⟨n, hn, hp, _⟩ := admitSize_events_shape av e m ft ev2 h2
          exact ⟨n, hn, hp⟩
        have hft : ∀ h3 : ev ∈ (admitSize av e m
              (if m.is_symlink = true then FileType.Symlink
               else if m.is_dir = true then FileType.Dir
               else FileType.File)).2,
            ∃ n m2, ev = BatchEv.checkSpace n true ∧ 0 < n ∧
              e.sndMeta = some m2 ∧ (m2.is_symlink = true ∨ m2.is_dir = false) := by
          intro h3
          obtain ⟨n, hn, hp, hnd⟩ := admitSize_events_shape av e m _ ev h3
          refine ⟨n, m, hn, hp, heq, ?_⟩
          by_cases hsym : m.is_symlink = true
          · exact Or.inl hsym
          · by_cases hdir : m.is_dir = true
            · exfalso
              apply hnd
              simp [hsym, hdir]
            · exact Or.inr (by revert hdir; cases m.is_dir <;> simp)
        split at h
        · split at h
          · exact absurd h (List.not_mem_nil _)
          · split at h
            · exact absurd h (List.not_mem_nil _)
            · exact hft h
        · exact hft h

/-- Directories are admitted with no per-item space check. -/
theorem admitSize_dir_no_check (av : Nat) (e : PathEnv) (m : SymMeta)
    (sz : Nat) (hd : e.dirStats = some sz) :
    admitSize av e m .Dir = (.accepted m .Dir sz, []) := by
  simp [admitSize, hd]

/-- Zero-size non-directory items are admitted with no per-item space
check. -/
theorem admitSize_zero_no_check (av : Nat) (e : PathEnv) (m : SymMeta)
    (ft : FileType) (hft : ft ≠ FileType.Dir) (hz : m.len = 0) :
    admitSize av e m ft = (.accepted m ft 0, []) := by
  unfold admitSize
  rw [if_neg hft]
  simp [hz]

theorem admissionPhase_events_single (force : Bool) (av : Nat) :
    ∀ paths : List PathEnv, ∀ ev ∈ (admissionPhase force av paths).2.2.2,
      ∃ n, ev = BatchEv.checkSpace n true := by
  intro paths
  induction paths with
  | nil => intro ev h; exact absurd h (List.not_mem_nil _)
  | cons p rest ih =>
    intro ev h
    rcases hp : admitItem force av p with ⟨adm, evs⟩
    have hhead : ∀ ev2 ∈ evs, ∃ n, ev2 = BatchEv.checkSpace n true := by
      intro ev2 h2
      obtain ⟨n, _, hn, _⟩ := admitItem_events_shape force av p ev2 (by rw [hp]; exact h2)
      exact ⟨n, hn⟩
    rcases adm with r | ⟨m, ft, sz⟩ <;>
    · simp only [admissionPhase, hp] at h
      rcases List.mem_append.mp h with h1 | h1
      · exact hhead ev h1
      · exact ih ev h1

theorem relocLoop_trace_shape (env : RunEnv) :
    ∀ (items : List (PathEnv × SymMeta × FileType × Nat)) (i : Nat)
      (st : LoopState),
    ∃ extra, (relocLoop env i items st).trace = st.trace ++ extra ∧
      ∀ ev ∈ extra, (∃ s d, ev = BatchEv.relocate s d) ∨
        (∃ t, ev = BatchEv.saveMeta t) ∨ (∃ s d, ev = BatchEv.moveBack s d) := by
  intro items
  induction items with
  | nil =>
    intro i st
    exact ⟨[], by simp [relocLoop], by simp⟩
  | cons it rest ih =>
    intro i st
    obtain ⟨e, m, ft, size⟩ := it
    unfold relocLoop
    by_cases hfl : flagAt env i = true
    · rw [if_pos hfl]
      exact ⟨[], by simp, by simp⟩
    · rw [if_neg hfl]
      by_cases hmv : env.moveOk i = true
      · rw [if_pos hmv]
        by_cases hmt : env.metaOk i = true
        · rw [if_pos hmt]
          obtain ⟨extra, he, hs⟩ := ih (i + 1) _
          refine ⟨[BatchEv.relocate e.path (trashPathFor env e i),
            BatchEv.saveMeta (trashIdFor env e i)] ++ extra, ?_, ?_⟩
          · rw [he]
            simp
          · intro ev hev
            rcases List.mem_append.mp hev with h1 | h1
            · rcases List.mem_cons.mp h1 with rfl | h2
              · exact Or.inl ⟨_, _, rfl⟩
              · rcases List.mem_cons.mp h2 with rfl | h3
                · exact Or.inr (Or.inl ⟨_, rfl⟩)
                · exact absurd h3 (List.not_mem_nil _)
            · exact hs ev h1
        · rw [if_neg hmt]
          obtain ⟨extra, he, hs⟩ := ih (i + 1) _
          refine ⟨[BatchEv.relocate e.path (trashPathFor env e i),
            BatchEv.moveBack (trashPathFor env e i) e.path] ++ extra, ?_, ?_⟩
          · rw [he]
            simp
          · intro ev hev
            rcases List.mem_append.mp hev with h1 | h1
            · rcases List.mem_cons.mp h1 with rfl | h2
              · exact Or.inl ⟨_, _, rfl⟩
              · rcases List.mem_cons.mp h2 with rfl | h3
                · exact Or.inr (Or.inr ⟨_, _, rfl⟩)
                · exact absurd h3 (List.not_mem_nil _)
            · exact hs ev h1
      · rw [if_neg hmv]
        obtain ⟨extra, he, hs⟩ := ih (i + 1) _
        refine ⟨[BatchEv.relocate e.path (trashPathFor env e i)] ++ extra, ?_, ?_⟩
        · rw [he]
          simp
        · intro ev hev
          rcases List.mem_append.mp hev with h1 | h1
          · rcases List.mem_cons.mp h1 with rfl | h2
            · exact Or.inl ⟨_, _, rfl⟩
            · exact absurd h2 (List.not_mem_nil _)
          · exact hs ev h1

theorem rollbackLoop_trace_shape (env : RunEnv) :
    ∀ (l : List MovedItem) (st : LoopState),
    ∃ extra, (rollbackLoop env l st).trace = st.trace ++ extra ∧
      ∀ ev ∈ extra, (∃ s d, ev = BatchEv.moveBack s d) ∨
        (∃ t, ev = BatchEv.removeMetaFile t) := by
  intro l
  induction l with
  | nil =>
    intro st
    exact ⟨[], by simp [rollbackLoop], by simp⟩
  | cons it rest ih =>
    intro st
    unfold rollbackLoop
    by_cases hc : st.trashSet.contains it.trash_path = true
    · rw [if_pos hc]
      obtain ⟨extra, he, hs⟩ := ih _
      refine ⟨[BatchEv.moveBack it.trash_path it.original_path,
        BatchEv.removeMetaFile it.trash_id] ++ extra, ?_, ?_⟩
      · rw [he]
        simp
      · intro ev hev
        rcases List.mem_append.mp hev with h1 | h1
        · rcases List.mem_cons.mp h1 with rfl | h2
          · exact Or.inl ⟨_, _, rfl⟩
          · rcases List.mem_cons.mp h2 with rfl | h3
            · exact Or.inr ⟨_, rfl⟩
            · exact absurd h3 (List.not_mem_nil _)
        · exact hs ev h1
    · rw [if_neg hc]
      exact ih st

/-- Unpack a successful batch run into its phases. -/
theorem handle_delete_batch_ok (env : RunEnv) (paths : List PathEnv)
    (bo : BatchOut) (hrun : handle_delete_batch env paths = .ok bo) :
    check_disk_space env.available
      (admissionPhase env.force env.available paths).2.2.1 false = .ok () ∧
    bo.skipped = (admissionPhase env.force env.available paths).2.1 ∧
    ((flagAt env (admissionPhase env.force env.available paths).1.length = true ∧
      bo.final = rollbackLoop env (batchSt env paths).moved.reverse (batchSt env paths) ∧
      bo.rollbackCount = some (batchSt env paths).moved.length) ∨
     (flagAt env (admissionPhase env.force env.available paths).1.length = false ∧
      bo.final = batchSt env paths ∧
      bo.rollbackCount = none)) := by
  unfold handle_delete_batch at hrun
  split at hrun
  · cases hrun
  · split at hrun
    · cases hrun
    · next u hspace =>
      have hspace' : check_disk_space env.available
          (admissionPhase env.force env.available paths).2.2.1 false = .ok () := by
        cases u
        exact hspace
      split at hrun
      · next hfl =>
        obtain rfl := (Except.ok.injEq _ _).mp hrun
        exact ⟨hspace', rfl, Or.inl ⟨hfl, rfl, rfl⟩⟩
      · next hfl =>
        obtain rfl := (Except.ok.injEq _ _).mp hrun
        exact ⟨hspace', rfl, Or.inr ⟨by revert hfl; cases flagAt env _ <;> simp, rfl, rfl⟩⟩

/-- **C10.** The per-item space check (`check_disk_space(.., true)`, the
80% single-item rule included) is invoked only for non-directory items of
positive size — directories and zero-size items are admitted with no
per-item check — and the one cumulative batch-total check
(`check_disk_space(.., false)`) happens exactly once, after admission and
before any relocation event. -/
theorem C10_per_item_check_scope :
    (∀ av e m sz, e.dirStats = some sz →
      admitSize av e m .Dir = (.accepted m .Dir sz, [])) ∧
    (∀ av e m ft, ft ≠ FileType.Dir → m.len = 0 →
      admitSize av e m ft = (.accepted m ft 0, [])) ∧
    (∀ force av e, ∀ ev ∈ (admitItem force av e).2,
      ∃ n m2, ev = BatchEv.checkSpace n true ∧ 0 < n ∧
        e.sndMeta = some m2 ∧ (m2.is_symlink = true ∨ m2.is_dir = false)) ∧
    (∀ env paths bo, handle_delete_batch env paths = .ok bo →
      ∃ rest, bo.final.trace =
          (admissionPhase env.force env.available paths).2.2.2 ++
          [BatchEv.checkSpace
            (admissionPhase env.force env.available paths).2.2.1 false] ++ rest ∧
        (∀ ev ∈ (admissionPhase env.force env.available paths).2.2.2,
          ∃ n, ev = BatchEv.checkSpace n true) ∧
        (∀ ev ∈ rest, ∀ n b, ev ≠ BatchEv.checkSpace n b)) := by
  refine ⟨admitSize_dir_no_check, admitSize_zero_no_check,
    admitItem_events_shape, ?_⟩
  intro env paths bo hrun
  obtain ⟨-, -, hbr⟩ := handle_delete_batch_ok env paths bo hrun
  obtain ⟨e1, he1, hs1⟩ := relocLoop_trace_shape env
    (admissionPhase env.force env.available paths).1 0 (batchSt0 env paths)
  have he1' : (batchSt env paths).trace =
      (admissionPhase env.force env.available paths).2.2.2 ++
      [BatchEv.checkSpace
        (admissionPhase env.force env.available paths).2.2.1 false] ++ e1 := by
    rw [batchSt, he1]
    simp [batchSt0]
  rcases hbr with ⟨-, hfin, -⟩ | ⟨-, hfin, -⟩
  · obtain ⟨e2, he2, hs2⟩ := rollbackLoop_trace_shape env
      (batchSt env paths).moved.reverse (batchSt env paths)
    refine ⟨e1 ++ e2, ?_, admissionPhase_events_single env.force env.available paths, ?_⟩
    · rw [hfin, he2, he1']
      simp
    · intro ev hev n b
      rcases List.mem_append.mp hev with h1 | h1
      · rcases hs1 ev h1 with ⟨s, d, rfl⟩ | ⟨t, rfl⟩ | ⟨s, d, rfl⟩ <;> simp
      · rcases hs2 ev h1 with ⟨s, d, rfl⟩ | ⟨t, rfl⟩ <;> simp
  · refine ⟨e1, ?_, admissionPhase_events_single env.force env.available paths, ?_⟩
    · rw [hfin, he1']
    · intro ev hev n b
      rcases hs1 ev hev with ⟨s, d, rfl⟩ | ⟨t, rfl⟩ | ⟨s, d, rfl⟩ <;> simp

/-! ## Claim C4 — short-id uniqueness within one run

`generate_short_id` resolves collisions only against the `existing` set,
and `handle_delete_batch` builds `existing_short_ids` once (line 663) and
never inserts the ids it allocates during the run.  Two items whose
`trash_id` MD5 prefixes collide therefore receive the *same* short id.
The claim (and the spec's §4.3/§8 uniqueness guarantee, which the
collision-resolution loop plainly intends) is right and the code is
wrong: a real 24-bit-prefix collision exhibits it. -/

example : generate_short_id "x_1700000000000001050" .File [] = "fe532b7" := by
  decide

example : generate_short_id "x_1700000000000002207" .File [] = "fe532b7" := by
  decide

/-- When the freshly allocated id is fed back into `existing` (what the
collision loop is plainly for), the second item would get a suffixed,
distinct id. -/
example : generate_short_id "x_1700000000000002207" .File ["fe532b7"] =
    "fe532b7_1" := by decide

def cPathC4a : PathEnv :=
  ⟨"/tmp/a/x", some dummySym, none, true, some dummySym, some "/tmp/a/x", none⟩

def cPathC4b : PathEnv :=
  ⟨"/tmp/b/x", some dummySym, none, true, some dummySym, some "/tmp/b/x", none⟩

def cRunEnvC4 : RunEnv :=
  ⟨false, 1000000, "/T/trash", [], none,
    fun _ => true, fun _ => true, fun _ => true,
    fun i => if i = 0 then 1700000000000001050 else 1700000000000002207⟩

/-- **C4 (failing input).** A two-item batch — `/tmp/a/x` and `/tmp/b/x`,
both with file name `x`, relocated at nanosecond timestamps
1700000000000001050 and 1700000000000002207 whose trash-id MD5 hex
digests both start `e532b7` — completes with *both* moved items holding
the same short id `fe532b7`, although their trash ids are distinct:
the allocated short identifiers of one run are not pairwise distinct
when hash prefixes collide. -/
theorem C4_duplicate_short_ids_failing_input :
    (handle_delete_batch cRunEnvC4 [cPathC4a, cPathC4b]).map
      (fun bo => bo.final.moved.map (fun it => (it.trash_id, it.short_id))) =
    Except.ok [("x_1700000000000001050", "fe532b7"),
               ("x_1700000000000002207", "fe532b7")] := by rfl

/-! ## Relocation-loop lemmas shared by C9 and C1 -/

def dummyPE : PathEnv := ⟨"", none, none, false, none, none, none⟩

def dummyQuad : PathEnv × SymMeta × FileType × Nat := (dummyPE, dummySym, .File, 0)

/-- The cancellation flag is set-once: a later poll reading it unset
means every earlier poll read it unset. -/
theorem flagAt_mono (env : RunEnv) (a b : Nat) (hab : a ≤ b)
    (h : flagAt env b = false) : flagAt env a = false := by
  unfold flagAt at h ⊢
  rcases hix : env.intrIdx with _ | i
  · rfl
  · rw [hix] at h
    simp only [decide_eq_false_iff_not] at h ⊢
    omega

theorem relocLoop_failed_mono (env : RunEnv) :
    ∀ (items : List (PathEnv × SymMeta × FileType × Nat)) (i : Nat)
      (st : LoopState) (x : String × String),
      x ∈ st.failed → x ∈ (relocLoop env i items st).failed := by
  intro items
  induction items with
  | nil => intro i st x h; simpa [relocLoop] using h
  | cons it rest ih =>
    intro i st x h
    obtain ⟨e, m, ft, size⟩ := it
    unfold relocLoop
    by_cases hfl : flagAt env i = true
    · rw [if_pos hfl]; exact h
    · rw [if_neg hfl]
      by_cases hmv : env.moveOk i = true
      · rw [if_pos hmv]
        by_cases hmt : env.metaOk i = true
        · rw [if_pos hmt]
          exact ih (i + 1) _ x h
        · rw [if_neg hmt]
          exact ih (i + 1) _ x (List.mem_append_left _ h)
      · rw [if_neg hmv]
        exact ih (i + 1) _ x (List.mem_append_left _ h)

theorem relocLoop_trace_mono (env : RunEnv) :
    ∀ (items : List (PathEnv × SymMeta × FileType × Nat)) (i : Nat)
      (st : LoopState) (ev : BatchEv),
      ev ∈ st.trace → ev ∈ (relocLoop env i items st).trace := by
  intro items
  induction items with
  | nil => intro i st ev h; simpa [relocLoop] using h
  | cons it rest ih =>
    intro i st ev h
    obtain ⟨e, m, ft, size⟩ := it
    unfold relocLoop
    by_cases hfl : flagAt env i = true
    · rw [if_pos hfl]; exact h
    · rw [if_neg hfl]
      by_cases hmv : env.moveOk i = true
      · rw [if_pos hmv]
        by_cases hmt : env.metaOk i = true
        · rw [if_pos hmt]
          exact ih (i + 1) _ ev
            (List.mem_append_left _ (List.mem_append_left _ h))
        · rw [if_neg hmt]
          exact ih (i + 1) _ ev
            (List.mem_append_left _ (List.mem_append_left _ h))
      · rw [if_neg hmv]
        exact ih (i + 1) _ ev (List.mem_append_left _ h)

theorem rollbackLoop_trace_mono (env : RunEnv) :
    ∀ (l : List MovedItem) (st : LoopState) (ev : BatchEv),
      ev ∈ st.trace → ev ∈ (rollbackLoop env l st).trace := by
  intro l
  induction l with
  | nil => intro st ev h; simpa [rollbackLoop] using h
  | cons it rest ih =>
    intro st ev h
    unfold rollbackLoop
    by_cases hc : st.trashSet.contains it.trash_path = true
    · rw [if_pos hc]
      exact ih _ ev (List.mem_append_left _ h)
    · rw [if_neg hc]
      exact ih _ ev h

theorem rollbackLoop_failed_eq (env : RunEnv) :
    ∀ (l : List MovedItem) (st : LoopState),
      (rollbackLoop env l st).failed = st.failed := by
  intro l
  induction l with
  | nil => intro st; simp [rollbackLoop]
  | cons it rest ih =>
    intro st
    unfold rollbackLoop
    by_cases hc : st.trashSet.contains it.trash_path = true
    · rw [if_pos hc]; exact ih _
    · rw [if_neg hc]; exact ih _

theorem rollbackLoop_metaSet_sub (env : RunEnv) :
    ∀ (l : List MovedItem) (st : LoopState) (x : String),
      x ∈ (rollbackLoop env l st).metaSet → x ∈ st.metaSet := by
  intro l
  induction l with
  | nil => intro st x h; simpa [rollbackLoop] using h
  | cons it rest ih =>
    intro st x h
    unfold rollbackLoop at h
    by_cases hc : st.trashSet.contains it.trash_path = true
    · rw [if_pos hc] at h
      have := ih _ x h
      exact (List.mem_filter.mp this).1
    · rw [if_neg hc] at h
      exact ih _ x h

/-- Anything in the meta store after the relocation loop was there before
or is the trash id of an item whose metadata save succeeded. -/
theorem relocLoop_metaSet_src (env : RunEnv) :
    ∀ (items : List (PathEnv × SymMeta × FileType × Nat)) (i : Nat)
      (st : LoopState) (x : String),
      x ∈ (relocLoop env i items st).metaSet →
      x ∈ st.metaSet ∨ ∃ j, j < items.length ∧ env.metaOk (i + j) = true ∧
        x = trashIdFor env (items.getD j dummyQuad).1 (i + j) := by
  intro items
  induction items with
  | nil => intro i st x h; exact Or.inl (by simpa [relocLoop] using h)
  | cons it rest ih =>
    intro i st x h
    obtain ⟨e, m, ft, size⟩ := it
    unfold relocLoop at h
    by_cases hfl : flagAt env i = true
    · rw [if_pos hfl] at h; exact Or.inl h
    · rw [if_neg hfl] at h
      by_cases hmv : env.moveOk i = true
      · rw [if_pos hmv] at h
        by_cases hmt : env.metaOk i = true
        · rw [if_pos hmt] at h
          rcases ih (i + 1) _ x h with hold | ⟨j, hj, hok, hx⟩
          · rcases List.mem_append.mp hold with h1 | h1
            · exact Or.inl h1
            · refine Or.inr ⟨0, by simp only [List.length_cons]; omega,
                by simpa using hmt, ?_⟩
              simpa using List.mem_singleton.mp h1
          · refine Or.inr ⟨j + 1, by simp only [List.length_cons]; omega, ?_, ?_⟩
            · have : i + (j + 1) = i + 1 + j := by omega
              rw [this]; exact hok
            · have : i + (j + 1) = i + 1 + j := by omega
              rw [this]
              simpa using hx
        · rw [if_neg hmt] at h
          rcases ih (i + 1) _ x h with hold | ⟨j, hj, hok, hx⟩
          · exact Or.inl hold
          · refine Or.inr ⟨j + 1, by simp only [List.length_cons]; omega, ?_, ?_⟩
            · have : i + (j + 1) = i + 1 + j := by omega
              rw [this]; exact hok
            · have : i + (j + 1) = i + 1 + j := by omega
              rw [this]
              simpa using hx
      · rw [if_neg hmv] at h
        rcases ih (i + 1) _ x h with hold | ⟨j, hj, hok, hx⟩
        · exact Or.inl hold
        · refine Or.inr ⟨j + 1, by simp only [List.length_cons]; omega, ?_, ?_⟩
          · have : i + (j + 1) = i + 1 + j := by omega
            rw [this]; exact hok
          · have : i + (j + 1) = i + 1 + j := by omega
            rw [this]
            simpa using hx

/-- A processed item (cancellation unobserved at its poll) that relocated
but failed its metadata save is recorded as failed and compensated with a
move of the quarantined copy back to its original path. -/
theorem relocLoop_processed_metafail (env : RunEnv) :
    ∀ (items : List (PathEnv × SymMeta × FileType × Nat)) (i : Nat)
      (st : LoopState) (j : Nat),
      j < items.length → flagAt env (i + j) = false →
      env.moveOk (i + j) = true → env.metaOk (i + j) = false →
      ((items.getD j dummyQuad).1.path, "Metadata save failed") ∈
        (relocLoop env i items st).failed ∧
      BatchEv.moveBack (trashPathFor env (items.getD j dummyQuad).1 (i + j))
        ((items.getD j dummyQuad).1.path) ∈ (relocLoop env i items st).trace := by
  intro items
  induction items with
  | nil => intro i st j hj; exact absurd hj (by simp)
  | cons it rest ih =>
    intro i st j hj hfl hmv hmt
    obtain ⟨e, m, ft, size⟩ := it
    rcases j with _ | j
    · have hfl0 : flagAt env i = false := by simpa using hfl
      have hmv0 : env.moveOk i = true := by simpa using hmv
      have hmt0 : env.metaOk i = false := by simpa using hmt
      unfold relocLoop
      rw [if_neg (by rw [hfl0]; simp), if_pos hmv0, if_neg (by rw [hmt0]; simp)]
      simp only [List.getD_cons_zero, Nat.add_zero]
      constructor
      · exact relocLoop_failed_mono env rest (i + 1) _ _
          (List.mem_append_right _ (by simp))
      · exact relocLoop_trace_mono env rest (i + 1) _ _
          (List.mem_append_right _ (by simp))
    · have hfl0 : flagAt env i = false :=
        flagAt_mono env i (i + (j + 1)) (by omega) hfl
      have harith : i + (j + 1) = i + 1 + j := by omega
      have hrest := fun st' => ih (i + 1) st' j
        (by simp only [List.length_cons] at hj; omega)
        (by rw [← harith]; exact hfl) (by rw [← harith]; exact hmv)
        (by rw [← harith]; exact hmt)
      unfold relocLoop
      rw [if_neg (by rw [hfl0]; simp)]
      by_cases hmv0 : env.moveOk i = true
      · rw [if_pos hmv0]
        by_cases hmt0 : env.metaOk i = true
        · rw [if_pos hmt0]
          simp only [List.getD_cons_succ, harith]
          exact hrest _
        · rw [if_neg hmt0]
          simp only [List.getD_cons_succ, harith]
          exact hrest _
      · rw [if_neg hmv0]
        simp only [List.getD_cons_succ, harith]
        exact hrest _

/-! ## Claim C9 — compensation when the metadata save fails -/

/-- **C9.** If item `i` of the batch is processed (cancellation not yet
observed), its physical relocation into quarantine succeeds but its
metadata save fails, then the batch compensates: it issues the move of
the quarantined copy back to the item's original path, records the item
in the failed list with the metadata-save reason, and the final state
holds no metadata record under that item's trash id (the hypothesis
`hids` is the distinctness of the run's trash ids, which hold real runs'
nanosecond timestamps give). -/
theorem C9_metadata_failure_compensation (env : RunEnv) (paths : List PathEnv)
    (bo : BatchOut) (i : Nat)
    (hrun : handle_delete_batch env paths = .ok bo)
    (hi : i < (admissionPhase env.force env.available paths).1.length)
    (hflag : flagAt env i = false)
    (hmv : env.moveOk i = true) (hmt : env.metaOk i = false)
    (hids : ∀ k, k < (admissionPhase env.force env.available paths).1.length →
      ∀ j, j < k →
      trashIdFor env
        ((admissionPhase env.force env.available paths).1.getD j dummyQuad).1 j ≠
      trashIdFor env
        ((admissionPhase env.force env.available paths).1.getD k dummyQuad).1 k) :
    (((admissionPhase env.force env.available paths).1.getD i dummyQuad).1.path,
      "Metadata save failed") ∈ bo.final.failed ∧
    BatchEv.moveBack
      (trashPathFor env
        ((admissionPhase env.force env.available paths).1.getD i dummyQuad).1 i)
      (((admissionPhase env.force env.available paths).1.getD i dummyQuad).1.path)
      ∈ bo.final.trace ∧
    trashIdFor env
      ((admissionPhase env.force env.available paths).1.getD i dummyQuad).1 i
      ∉ bo.final.metaSet := by
  obtain ⟨-, -, hbr⟩ := handle_delete_batch_ok env paths bo hrun
  have hproc := relocLoop_processed_metafail env
    (admissionPhase env.force env.available paths).1 0 (batchSt0 env paths) i hi
    (by simpa using hflag) (by simpa using hmv) (by simpa using hmt)
  simp only [Nat.zero_add] at hproc
  have hmeta : trashIdFor env
      ((admissionPhase env.force env.available paths).1.getD i dummyQuad).1 i
      ∉ (batchSt env paths).metaSet := by
    intro hin
    rcases relocLoop_metaSet_src env
        (admissionPhase env.force env.available paths).1 0 (batchSt0 env paths)
        _ hin with h0 | ⟨j, hj, hok, hx⟩
    · simp [batchSt0] at h0
    · rw [Nat.zero_add] at hok hx
      rcases Nat.lt_trichotomy j i with hlt | rfl | hlt
      · exact hids i hi j hlt hx.symm
      · rw [hok] at hmt
        cases hmt
      · exact hids j hj i hlt hx
  rcases hbr with ⟨-, hfin, -⟩ | ⟨-, hfin, -⟩
  · refine ⟨?_, ?_, ?_⟩
    · rw [hfin, rollbackLoop_failed_eq]
      exact hproc.1
    · rw [hfin]
      exact rollbackLoop_trace_mono env _ _ _ hproc.2
    · rw [hfin]
      intro hin
      exact hmeta (rollbackLoop_metaSet_sub env _ _ _ hin)
  · rw [hfin]
    exact ⟨hproc.1, hproc.2, hmeta⟩

def cPathsC9 : List PathEnv :=
  [⟨"/tmp/a/x", some dummySym, none, true, some dummySym, some "/tmp/a/x", none⟩,
   ⟨"/tmp/b/y", some dummySym, none, true, some dummySym, some "/tmp/b/y", none⟩]

def cRunEnvC9 : RunEnv :=
  ⟨false, 1000000, "/T/trash", [], none,
    fun _ => true, fun i => decide (i ≠ 0), fun _ => true, fun i => i⟩

def cBoC9 : BatchOut :=
  match handle_delete_batch cRunEnvC9 cPathsC9 with
  | .ok bo => bo
  | .error _ => ⟨[], ⟨[], [], [], [], [], []⟩, none⟩

/-- Witness for C9: item 0 of a two-item batch relocates fine but its
metadata save fails. -/
theorem C9_metadata_failure_compensation_witness :
    (((admissionPhase cRunEnvC9.force cRunEnvC9.available cPathsC9).1.getD 0
        dummyQuad).1.path, "Metadata save failed") ∈ cBoC9.final.failed ∧
    BatchEv.moveBack
      (trashPathFor cRunEnvC9
        ((admissionPhase cRunEnvC9.force cRunEnvC9.available cPathsC9).1.getD 0
          dummyQuad).1 0)
      (((admissionPhase cRunEnvC9.force cRunEnvC9.available cPathsC9).1.getD 0
        dummyQuad).1.path) ∈ cBoC9.final.trace ∧
    trashIdFor cRunEnvC9
      ((admissionPhase cRunEnvC9.force cRunEnvC9.available cPathsC9).1.getD 0
        dummyQuad).1 0 ∉ cBoC9.final.metaSet :=
  C9_metadata_failure_compensation cRunEnvC9 cPathsC9 cBoC9 0 rfl
    (by decide) rfl rfl rfl (by decide)

/-! ## Claim C1 — interruption stops new relocations and rolls back in
reverse completion order -/

/-- The event sequence of a full rollback pass: for each item in the
given order, the move of the quarantined copy back to its original path
followed by the deletion of its metadata record. -/
def rollbackEvs : List MovedItem → List BatchEv
  | [] => []
  | it :: rest => BatchEv.moveBack it.trash_path it.original_path ::
      BatchEv.removeMetaFile it.trash_id :: rollbackEvs rest

/-- When every listed item's quarantined copy is present and the listed
trash paths are distinct, the rollback loop performs the full per-item
compensation sequence in exactly the given order — regardless of whether
the individual move-back calls succeed (a per-item rollback failure never
aborts the remaining sequence). -/
theorem rollbackLoop_trace_eq (env : RunEnv) :
    ∀ (l : List MovedItem) (st : LoopState),
      (∀ it ∈ l, it.trash_path ∈ st.trashSet) →
      ((l.map (fun it => it.trash_path)).Nodup) →
      (rollbackLoop env l st).trace = st.trace ++ rollbackEvs l := by
  intro l
  induction l with
  | nil => intro st _ _; simp [rollbackLoop, rollbackEvs]
  | cons it rest ih =>
    intro st hl hnd
    have hmem : it.trash_path ∈ st.trashSet := hl it (List.mem_cons_self _ _)
    have hcont : st.trashSet.contains it.trash_path = true := List.elem_iff.mpr hmem
    simp only [List.map_cons, List.nodup_cons] at hnd
    have hne : ∀ x ∈ rest, x.trash_path ≠ it.trash_path := by
      intro x hx heq
      exact hnd.1 (heq ▸ List.mem_map_of_mem _ hx)
    unfold rollbackLoop
    rw [if_pos hcont]
    rw [ih _ ?_ hnd.2]
    · dsimp only
      simp [rollbackEvs]
    · intro x hx
      dsimp only
      split
      · exact List.mem_filter.mpr
          ⟨hl x (List.mem_cons_of_mem _ hx), by simpa using hne x hx⟩
      · exact hl x (List.mem_cons_of_mem _ hx)

/-- Relocation-loop invariant: with the run's remaining computed trash
paths pairwise distinct and fresh relative to the already-moved items,
every moved item's quarantined copy is still present in the trash set at
loop exit, and the moved trash paths are distinct. -/
theorem relocLoop_inv (env : RunEnv) :
    ∀ (items : List (PathEnv × SymMeta × FileType × Nat)) (i : Nat)
      (st : LoopState),
      (∀ it ∈ st.moved, it.trash_path ∈ st.trashSet) →
      ((st.moved.map (fun it => it.trash_path)).Nodup) →
      (∀ it ∈ st.moved, ∀ j, j < items.length →
        it.trash_path ≠ trashPathFor env (items.getD j dummyQuad).1 (i + j)) →
      (∀ k, k < items.length → ∀ j, j < k →
        trashPathFor env (items.getD j dummyQuad).1 (i + j) ≠
        trashPathFor env (items.getD k dummyQuad).1 (i + k)) →
      (∀ it ∈ (relocLoop env i items st).moved,
        it.trash_path ∈ (relocLoop env i items st).trashSet) ∧
      (((relocLoop env i items st).moved.map (fun it => it.trash_path)).Nodup) := by
  intro items
  induction items with
  | nil => intro i st hA hB _ _; exact ⟨hA, hB⟩
  | cons itq rest ih =>
    intro i st hA hB hC hD
    obtain ⟨e, m, ft, size⟩ := itq
    have harith : ∀ j : Nat, i + (j + 1) = i + 1 + j := fun j => by omega
    have hC0 : ∀ it ∈ st.moved, it.trash_path ≠ trashPathFor env e i := by
      intro it hit
      have := hC it hit 0 (by simp)
      simp only [List.getD_cons_zero, Nat.add_zero] at this
      exact this
    unfold relocLoop
    by_cases hfl : flagAt env i = true
    · rw [if_pos hfl]
      exact ⟨hA, hB⟩
    · rw [if_neg hfl]
      by_cases hmv : env.moveOk i = true
      · rw [if_pos hmv]
        by_cases hmt : env.metaOk i = true
        · rw [if_pos hmt]
          apply ih (i + 1)
          · intro it hit
            dsimp only at hit ⊢
            rcases List.mem_append.mp hit with h1 | h1
            · exact List.mem_append_left _ (hA it h1)
            · rw [List.mem_singleton.mp h1]
              exact List.mem_append_right _ (by simp)
          · dsimp only
            rw [List.map_append]
            simp only [List.map_cons, List.map_nil]
            rw [List.nodup_append]
            refine ⟨hB, List.nodup_singleton _, ?_⟩
            intro a ha hb
            obtain ⟨it0, hit0, hpath⟩ := List.mem_map.mp ha
            exact hC0 it0 hit0 (by rw [hpath, List.mem_singleton.mp hb])
          · intro it hit j hj
            dsimp only at hit
            rcases List.mem_append.mp hit with h1 | h1
            · have := hC it h1 (j + 1) (by simp only [List.length_cons]; omega)
              simp only [List.getD_cons_succ] at this
              rw [harith j] at this
              exact this
            · rw [List.mem_singleton.mp h1]
              have := hD (j + 1) (by simp only [List.length_cons]; omega) 0
                (by omega)
              simp only [List.getD_cons_succ, List.getD_cons_zero,
                Nat.add_zero] at this
              rw [harith j] at this
              exact this
          · intro k hk j hj
            have := hD (k + 1) (by simp only [List.length_cons]; omega) (j + 1)
              (by omega)
            simp only [List.getD_cons_succ] at this
            rw [harith j, harith k] at this
            exact this
        · rw [if_neg hmt]
          apply ih (i + 1)
          · intro it hit
            dsimp only at hit ⊢
            split
            · exact List.mem_filter.mpr
                ⟨List.mem_append_left _ (hA it hit), by simpa using hC0 it hit⟩
            · exact List.mem_append_left _ (hA it hit)
          · exact hB
          · intro it hit j hj
            have := hC it hit (j + 1) (by simp only [List.length_cons]; omega)
            simp only [List.getD_cons_succ] at this
            rw [harith j] at this
            exact this
          · intro k hk j hj
            have := hD (k + 1) (by simp only [List.length_cons]; omega) (j + 1)
              (by omega)
            simp only [List.getD_cons_succ] at this
            rw [harith j, harith k] at this
            exact this
      · rw [if_neg hmv]
        apply ih (i + 1)
        · exact hA
        · exact hB
        · intro it hit j hj
          have := hC it hit (j + 1) (by simp only [List.length_cons]; omega)
          simp only [List.getD_cons_succ] at this
          rw [harith j] at this
          exact this
        · intro k hk j hj
          have := hD (k + 1) (by simp only [List.length_cons]; omega) (j + 1)
            (by omega)
          simp only [List.getD_cons_succ] at this
          rw [harith j, harith k] at this
          exact this

/-- Every relocation attempt in the loop's trace belongs to an item whose
loop-top cancellation poll read the flag unset. -/
theorem relocLoop_relocate_src (env : RunEnv) :
    ∀ (items : List (PathEnv × SymMeta × FileType × Nat)) (i : Nat)
      (st : LoopState) (s d : String),
      BatchEv.relocate s d ∈ (relocLoop env i items st).trace →
      BatchEv.relocate s d ∈ st.trace ∨
      ∃ j, j < items.length ∧ flagAt env (i + j) = false ∧
        s = ((items.getD j dummyQuad).1).path := by
  intro items
  induction items with
  | nil => intro i st s d h; exact Or.inl (by simpa [relocLoop] using h)
  | cons itq rest ih =>
    intro i st s d h
    obtain ⟨e, m, ft, size⟩ := itq
    unfold relocLoop at h
    by_cases hfl : flagAt env i = true
    · rw [if_pos hfl] at h
      exact Or.inl h
    · rw [if_neg hfl] at h
      have hflf : flagAt env i = false := by
        revert hfl; cases flagAt env i <;> simp
      have hnew : ∀ tr2 : List BatchEv,
          BatchEv.relocate s d ∈
            st.trace ++ [BatchEv.relocate e.path (trashPathFor env e i)] ++ tr2 →
          (BatchEv.relocate s d ∈ st.trace ∨ s = e.path) ∨
          BatchEv.relocate s d ∈ tr2 := by
        intro tr2 hm
        rcases List.mem_append.mp hm with h1 | h1
        · rcases List.mem_append.mp h1 with h2 | h2
          · exact Or.inl (Or.inl h2)
          · have := List.mem_singleton.mp h2
            exact Or.inl (Or.inr (by
              obtain ⟨hs, -⟩ := (BatchEv.relocate.injEq _ _ _ _).mp this
              exact hs))
        · exact Or.inr h1
      have hret : (BatchEv.relocate s d ∈ st.trace ∨ s = e.path) ∨
          (∃ j, j < rest.length ∧ flagAt env (i + 1 + j) = false ∧
            s = ((rest.getD j dummyQuad).1).path) → _ := id
      have hfinish : (BatchEv.relocate s d ∈ st.trace ∨ s = e.path) ∨
          (∃ j, j < rest.length ∧ flagAt env (i + 1 + j) = false ∧
            s = ((rest.getD j dummyQuad).1).path) →
          BatchEv.relocate s d ∈ st.trace ∨
          ∃ j, j < (((e, m, ft, size) : PathEnv × SymMeta × FileType × Nat) ::
              rest).length ∧ flagAt env (i + j) = false ∧
            s = (((((e, m, ft, size) : PathEnv × SymMeta × FileType × Nat) ::
              rest).getD j dummyQuad)).1.path := by
        rintro ((h0 | h0) | ⟨j, hj, hf, hs⟩)
        · exact Or.inl h0
        · exact Or.inr ⟨0, by simp, by simpa using hflf, by simpa using h0⟩
        · refine Or.inr ⟨j + 1, by simp only [List.length_cons]; omega, ?_, ?_⟩
          · have : i + (j + 1) = i + 1 + j := by omega
            rw [this]
            exact hf
          · simpa using hs
      apply hfinish
      by_cases hmv : env.moveOk i = true
      · rw [if_pos hmv] at h
        by_cases hmt : env.metaOk i = true
        · rw [if_pos hmt] at h
          rcases ih (i + 1) _ s d h with h1 | ⟨j, hj, hf, hs⟩
          · dsimp only at h1
            rcases hnew [BatchEv.saveMeta (trashIdFor env e i)]
                (by simpa using h1) with h2 | h2
            · exact Or.inl h2
            · exact absurd (List.mem_singleton.mp h2) (by simp)
          · exact Or.inr ⟨j, hj, hf, hs⟩
        · rw [if_neg hmt] at h
          rcases ih (i + 1) _ s d h with h1 | ⟨j, hj, hf, hs⟩
          · dsimp only at h1
            rcases hnew [BatchEv.moveBack (trashPathFor env e i) e.path]
                (by simpa using h1) with h2 | h2
            · exact Or.inl h2
            · exact absurd (List.mem_singleton.mp h2) (by simp)
          · exact Or.inr ⟨j, hj, hf, hs⟩
      · rw [if_neg hmv] at h
        rcases ih (i + 1) _ s d h with h1 | ⟨j, hj, hf, hs⟩
        · dsimp only at h1
          rcases hnew [] (by simpa using h1) with h2 | h2
          · exact Or.inl h2
          · exact absurd h2 (List.not_mem_nil _)
        · exact Or.inr ⟨j, hj, hf, hs⟩

/-- **C1.** When the cancellation flag is first observed at poll `k` (and
`k` is within the admitted batch, so the interruption is observed during
the run): no relocation is attempted for any item beyond the first `k`;
the final trace is the relocation-loop trace followed by exactly the full
per-item rollback sequence — quarantined copy moved back to its original
path, then metadata record deleted — in the exact reverse of completion
order, with no dependence on whether individual rollback moves succeed;
and the reported rollback count equals the number of items that had
completed.  `hD` is distinctness of the run's computed trash paths
(guaranteed in real runs by the strictly increasing nanosecond
timestamps in the trash ids). -/
theorem C1_interrupt_stops_and_rolls_back (env : RunEnv) (paths : List PathEnv)
    (bo : BatchOut) (k : Nat)
    (hrun : handle_delete_batch env paths = .ok bo)
    (hk : env.intrIdx = some k)
    (hk2 : k ≤ (admissionPhase env.force env.available paths).1.length)
    (hD : ∀ kk, kk < (admissionPhase env.force env.available paths).1.length →
      ∀ j, j < kk →
      trashPathFor env
        ((admissionPhase env.force env.available paths).1.getD j dummyQuad).1 j ≠
      trashPathFor env
        ((admissionPhase env.force env.available paths).1.getD kk dummyQuad).1 kk) :
    (∀ s d, BatchEv.relocate s d ∈ (batchSt env paths).trace →
      ∃ j, j < k ∧
        s = ((admissionPhase env.force env.available paths).1.getD j dummyQuad).1.path) ∧
    bo.final.trace = (batchSt env paths).trace ++
      rollbackEvs (batchSt env paths).moved.reverse ∧
    bo.rollbackCount = some (batchSt env paths).moved.length := by
  obtain ⟨-, -, hbr⟩ := handle_delete_batch_ok env paths bo hrun
  have hflag : flagAt env
      (admissionPhase env.force env.available paths).1.length = true := by
    unfold flagAt
    rw [hk]
    exact decide_eq_true hk2
  rcases hbr with ⟨-, hfin, hcount⟩ | ⟨hfl, -, -⟩
  · have hinv := relocLoop_inv env
      (admissionPhase env.force env.available paths).1 0 (batchSt0 env paths)
      (by simp [batchSt0]) (by simp [batchSt0]) (by simp [batchSt0])
      (by
        intro kk hkk j hj
        have := hD kk hkk j hj
        simpa using this)
    refine ⟨?_, ?_, hcount⟩
    · intro s d hmem
      rcases relocLoop_relocate_src env
          (admissionPhase env.force env.available paths).1 0 (batchSt0 env paths)
          s d hmem with h0 | ⟨j, hj, hf, hs⟩
      · exfalso
        simp only [batchSt0] at h0
        rcases List.mem_append.mp h0 with h1 | h1
        · obtain ⟨n, hn⟩ := admissionPhase_events_single env.force env.available
            paths _ h1
          cases hn
        · have := List.mem_singleton.mp h1
          cases this
      · refine ⟨j, ?_, by simpa using hs⟩
        unfold flagAt at hf
        rw [hk] at hf
        simp only [decide_eq_false_iff_not] at hf
        omega
    · rw [hfin]
      refine rollbackLoop_trace_eq env (batchSt env paths).moved.reverse
        (batchSt env paths) ?_ ?_
      · intro it hit
        exact hinv.1 it (List.mem_reverse.mp hit)
      · rw [List.map_reverse, List.nodup_reverse]
        exact hinv.2
  · rw [hfl] at hflag
    cases hflag

def mkPE (p : String) : PathEnv :=
  ⟨p, some dummySym, none, true, some dummySym, some p, none⟩

/-- The spec's example scenario: a 10-item batch interrupted after 4
successful relocations. -/
def cPathsC1 : List PathEnv :=
  (List.range 10).map (fun n => mkPE ("/d/f" ++ toString n))

def cRunEnvC1 : RunEnv :=
  ⟨false, 1000000, "/T/trash", [], some 4,
    fun _ => true, fun _ => true, fun _ => true, fun i => i⟩

def cBoC1 : BatchOut :=
  match handle_delete_batch cRunEnvC1 cPathsC1 with
  | .ok bo => bo
  | .error _ => ⟨[], ⟨[], [], [], [], [], []⟩, none⟩

example : cBoC1.rollbackCount = some 4 := by rfl

example : cBoC1.final.trashSet = [] ∧ cBoC1.final.metaSet = [] ∧
    cBoC1.final.restored = ["/d/f3", "/d/f2", "/d/f1", "/d/f0"] :=
  ⟨rfl, rfl, rfl⟩

/-- Witness for C1 at the spec's 10-item/interrupt-after-4 example. -/
theorem C1_interrupt_stops_and_rolls_back_witness :
    (∀ s d, BatchEv.relocate s d ∈ (batchSt cRunEnvC1 cPathsC1).trace →
      ∃ j, j < 4 ∧
        s = ((admissionPhase cRunEnvC1.force cRunEnvC1.available
          cPathsC1).1.getD j dummyQuad).1.path) ∧
    cBoC1.final.trace = (batchSt cRunEnvC1 cPathsC1).trace ++
      rollbackEvs (batchSt cRunEnvC1 cPathsC1).moved.reverse ∧
    cBoC1.rollbackCount = some (batchSt cRunEnvC1 cPathsC1).moved.length :=
  C1_interrupt_stops_and_rolls_back cRunEnvC1 cPathsC1 cBoC1 4 rfl rfl
    (by decide) (by decide)

end SafeSrm
